import Mathlib

/-!
Verification development for the dockworker repository's core text-processing
components: the environment-variable substitution engine (`src/parser/env.rs`),
the service dependency resolver and volume collection (`src/config/compose.rs`),
the memory-string parser (`src/config/requirements.rs`), and the Dockerfile
parser and renderer (`src/parser/docker_file.rs`, `src/config/docker_file.rs`).

Rust strings are modelled as lists of characters; `HashMap`s are modelled as
association lists (unique keys) or as lookup functions, and every fallible
operation returns `Except`/`Option`. Functions that in Rust recurse through
borrowed iterators are given an explicit fuel argument; the wrappers always
supply enough fuel, and where a theorem needs it we prove fuel-sufficiency.
-/

set_option maxRecDepth 4000
set_option linter.unusedVariables false

namespace Dockworker

/-- Text is modelled as a list of characters (Rust `&str`/`String`). -/

abbrev Str := List Char

/-- Converts a Lean string literal to the character-list representation. -/
def lit (s : String) : Str := s.data

/-- Whitespace test covering the ASCII whitespace characters recognised by
Rust's `char::is_whitespace` (the non-ASCII Unicode whitespace code points are
irrelevant to every input considered here). -/
def isWS (c : Char) : Bool :=
  c == ' ' || c == '\t' || c == '\n' || c == '\r' || c == '\x0b' || c == '\x0c'

/-- Character class `[a-zA-Z_]` (start of an identifier in the `$VAR` regex). -/
def isIdentStart (c : Char) : Bool := c.isAlpha || c == '_'

/-- Character class `[a-zA-Z0-9_]` (continuation of an identifier). -/
def isIdentChar (c : Char) : Bool := c.isAlphanum || c == '_'

/-- Rust `str::trim` (both ends), restricted to the ASCII whitespace class. -/
def trimStr (s : Str) : Str :=
  ((s.dropWhile isWS).reverse.dropWhile isWS).reverse

/-- Does the first list start with the second one (Rust `str::starts_with`)? -/
def startsWithStr : Str → Str → Bool
  | _, [] => true
  | [], _ :: _ => false
  | c :: s, d :: p => c == d && startsWithStr s p

/-- Rust `str::split(sep)`: splits at every separator, keeping empty pieces;
the result always has at least one element. -/
def splitOnChar (sep : Char) : Str → List Str
  | [] => [[]]
  | c :: rest =>
    if c == sep then [] :: splitOnChar sep rest
    else
      match splitOnChar sep rest with
      | [] => [[c]]
      | w :: ws => (c :: w) :: ws

/-- Rust `str::splitn(2, sep)`: `some (before, after)` at the first separator,
`none` when the separator does not occur (so `splitn` yields a single piece). -/
def splitOnceChar (sep : Char) : Str → Option (Str × Str)
  | [] => none
  | c :: rest =>
    if c == sep then some ([], rest)
    else (splitOnceChar sep rest).map (fun p => (c :: p.1, p.2))

/-- Rust `str::split_once(pat)` for a multi-character pattern: splits at the
first occurrence of the substring `pat`. -/
def splitOnceSub (pat : Str) : Str → Option (Str × Str)
  | [] => none
  | c :: rest =>
    if startsWithStr (c :: rest) pat then some ([], (c :: rest).drop pat.length)
    else (splitOnceSub pat rest).map (fun p => (c :: p.1, p.2))

/-- Accumulator-style worker for `splitWhitespace`; `curr` holds the current
word reversed. -/
def splitWhitespaceAux : Str → Str → List Str
  | curr, [] => if curr = [] then [] else [curr.reverse]
  | curr, c :: rest =>
    if isWS c then
      if curr = [] then splitWhitespaceAux [] rest
      else curr.reverse :: splitWhitespaceAux [] rest
    else splitWhitespaceAux (c :: curr) rest

/-- Rust `str::split_whitespace`: maximal runs of non-whitespace characters,
no empty pieces. -/
def splitWhitespace (s : Str) : List Str := splitWhitespaceAux [] s

/-- Joins words with single spaces (Rust `[&str]::join(" ")`). -/
def joinSpace (ws : List Str) : Str := List.intercalate [' '] ws

/-- Numeric value of an ASCII digit. -/
def digitVal (c : Char) : Option Nat :=
  if '0' ≤ c ∧ c ≤ '9' then some (c.toNat - '0'.toNat) else none

/-- Worker for `parseDigits`, accumulating the value left to right. -/
def parseDigitsAux (acc : Nat) : Str → Option Nat
  | [] => some acc
  | c :: rest =>
    match digitVal c with
    | some d => parseDigitsAux (acc * 10 + d) rest
    | none => none

/-- Parses a non-empty string of ASCII digits to its numeric value. -/
def parseDigits : Str → Option Nat
  | [] => none
  | c :: rest =>
    match digitVal c with
    | some d => parseDigitsAux d rest
    | none => none

/-- Rust `str::parse::<u16>`: an optional leading `+`, then ASCII digits;
values above `u16::MAX` are rejected. -/
def parseU16 (s : Str) : Option Nat :=
  let t : Str := match s with
    | '+' :: r => r
    | _ => s
  match parseDigits t with
  | some n => if n < 65536 then some n else none
  | none => none

/-- Rust `str::parse::<u32>`: an optional leading `+`, then ASCII digits;
values above `u32::MAX` are rejected. -/
def parseU32 (s : Str) : Option Nat :=
  let t : Str := match s with
    | '+' :: r => r
    | _ => s
  match parseDigits t with
  | some n => if n < 4294967296 then some n else none
  | none => none

/-- Rust `str::parse::<i64>`: an optional sign, then ASCII digits; values
outside the `i64` range are rejected. -/
def parseI64 (s : Str) : Option Int :=
  match s with
  | '-' :: r =>
    match parseDigits r with
    | some n => if (n : Int) ≤ 2 ^ 63 then some (-(n : Int)) else none
    | none => none
  | '+' :: r =>
    match parseDigits r with
    | some n => if (n : Int) < 2 ^ 63 then some (n : Int) else none
    | none => none
  | _ =>
    match parseDigits s with
    | some n => if (n : Int) < 2 ^ 63 then some (n : Int) else none
    | none => none

/-! ### Association-list maps

`HashMap<String, V>` values whose iteration order matters to the embedded code
are modelled as association lists with unique keys; `get` is `alookup` and
`insert` is `mapInsert` (replace the existing entry, else append). -/

/-- Lookup of the first entry with the given key (Rust `HashMap::get`). -/
def alookup {α : Type} : List (Str × α) → Str → Option α
  | [], _ => none
  | p :: m, n => if p.1 = n then some p.2 else alookup m n

/-- Rust `HashMap::insert`: replaces the value of an existing key, otherwise
appends a new entry. -/
def mapInsert {α : Type} (m : List (Str × α)) (k : Str) (v : α) : List (Str × α) :=
  if (alookup m k).isSome then
    m.map (fun p => if p.1 = k then (k, v) else p)
  else m ++ [(k, v)]

/-- Rust `HashMap::extend`: inserts every entry of the second map. -/
def extendMap {α : Type} (m : List (Str × α)) (u : List (Str × α)) : List (Str × α) :=
  u.foldl (fun acc p => mapInsert acc p.1 p.2) m

/-! ### Environment-variable substitution (`src/parser/env.rs`)

`substitute_env_vars` applies three regex `replace_all` passes in sequence:
`\$\{([^\x7b\x7d:]+):-([^\x7b\x7d]*)\}`, then `\$\{([^\x7b\x7d]+)\}`, then
`\$([a-zA-Z_][a-zA-Z0-9_]*)`.  Each pass is a left-to-right scan over its
input: at a position where the pattern matches, the replacement is emitted and
scanning resumes after the match (the replacement is not re-scanned by the
same pass); otherwise one character is emitted.  A fuel argument (the length
of the scanned text always suffices, since every step consumes at least one
character) keeps the recursion structural. -/

/-- Match attempt for `\{([^\x7b\x7d:]+):-([^\x7b\x7d]*)\}` at the position
immediately after a `$`; on success returns the name, the default and the
remaining text after the match. -/
def matchDefaultAt : Str → Option (Str × Str × Str)
  | [] => none
  | c0 :: rest =>
    if c0 = '{' then
      let name := rest.takeWhile fun c => !(c == '{' || c == '}' || c == ':')
      let r1 := rest.dropWhile fun c => !(c == '{' || c == '}' || c == ':')
      if name = [] then none
      else
        match r1 with
        | ':' :: '-' :: r2 =>
          let dflt := r2.takeWhile fun c => !(c == '{' || c == '}')
          let r3 := r2.dropWhile fun c => !(c == '{' || c == '}')
          match r3 with
          | '}' :: r4 => some (name, dflt, r4)
          | _ => none
        | _ => none
    else none

/-- Match attempt for `\{([^\x7b\x7d]+)\}` immediately after a `$`. -/
def matchCurlyAt : Str → Option (Str × Str)
  | [] => none
  | c0 :: rest =>
    if c0 = '{' then
      let name := rest.takeWhile fun c => !(c == '{' || c == '}')
      let r1 := rest.dropWhile fun c => !(c == '{' || c == '}')
      if name = [] then none
      else
        match r1 with
        | '}' :: r2 => some (name, r2)
        | _ => none
    else none

/-- Match attempt for `([a-zA-Z_][a-zA-Z0-9_]*)` immediately after a `$`. -/
def matchBareAt : Str → Option (Str × Str)
  | c :: rest =>
    if isIdentStart c then some (c :: rest.takeWhile isIdentChar, rest.dropWhile isIdentChar)
    else none
  | [] => none

/-- First pass: `replace_all` of the `VAR_DEFAULT_SYNTAX` regex.  A present
non-empty value wins; a present empty value and an absent variable both give
the default. -/
def passDefault (env : Str → Option Str) : Nat → Str → Str
  | 0, s => s
  | _ + 1, [] => []
  | fuel + 1, c :: rest =>
    if c = '$' then
      match matchDefaultAt rest with
      | some (name, dflt, r) =>
        let repl := match env name with
          | some v => if v = [] then dflt else v
          | none => dflt
        repl ++ passDefault env fuel r
      | none => c :: passDefault env fuel rest
    else c :: passDefault env fuel rest

/-- Second pass: `replace_all` of the `VAR_CURLY_SYNTAX` regex; an absent
variable becomes the empty string. -/
def passCurly (env : Str → Option Str) : Nat → Str → Str
  | 0, s => s
  | _ + 1, [] => []
  | fuel + 1, c :: rest =>
    if c = '$' then
      match matchCurlyAt rest with
      | some (name, r) => ((env name).getD []) ++ passCurly env fuel r
      | none => c :: passCurly env fuel rest
    else c :: passCurly env fuel rest

/-- Third pass: `replace_all` of the `VAR_SYNTAX` regex; an absent variable
becomes the empty string. -/
def passBare (env : Str → Option Str) : Nat → Str → Str
  | 0, s => s
  | _ + 1, [] => []
  | fuel + 1, c :: rest =>
    if c = '$' then
      match matchBareAt rest with
      | some (name, r) => ((env name).getD []) ++ passBare env fuel r
      | none => c :: passBare env fuel rest
    else c :: passBare env fuel rest

/-- The substitution engine `substitute_env_vars` of `src/parser/env.rs`: the
three passes run in sequence, each over the previous pass's entire output. -/
def substitute_env_vars (content : Str) (env : Str → Option Str) : Str :=
  let r1 := passDefault env content.length content
  let r2 := passCurly env r1.length r1
  passBare env r2.length r2

/-! ### The error type (`src/error.rs`)

Only the variants produced by the embedded functions are modelled; each
carries its human-readable message. -/

/-- The `DockerError` variants reachable from the embedded core. -/
inductive DockerError where
  | ValidationError (msg : Str)
  | DockerfileError (msg : Str)
  | InvalidResourceLimit (msg : Str)
deriving DecidableEq

deriving instance DecidableEq for Except

/-! ### Service dependency resolution (`ComposeConfig::resolve_service_order`)

The Rust code builds an adjacency map `name -> depends_on list` from the
services map and runs a depth-first topological sort with a `visited` set, a
`temp_visited` set (the current DFS path) and an output vector.  The adjacency
map is modelled as an association list (one entry per service, in some
iteration order of the `HashMap`), the two sets as lists, and the recursive
`visit` helper as `visitAll`, which processes a whole list of nodes (the
service-key loop and the `for dep in deps` loop have the same shape).  The
recursion is fuelled; `fuelBound` is always sufficient (`visitAll_isSome`). -/

/-- Adjacency map of the dependency graph: service name to `depends_on` list. -/
abbrev Graph := List (Str × List Str)

/-- Keys of the adjacency map (the service names). -/
def keysOf (g : Graph) : List Str := g.map Prod.fst

/-- Lookup in the adjacency map (`graph.get(node)` in the source). -/
def lookupDeps : Graph → Str → Option (List Str)
  | [], _ => none
  | (k, ds) :: g, n => if k = n then some ds else lookupDeps g n

/-- The depth-first visit of `resolve_service_order`, processing the nodes of
a list in order under path `temp`.  For each node: a node on the current DFS
path is a circular-dependency error; a finished node is skipped; otherwise the
node's dependencies (none when the node is not a key of the graph) are visited
with the node pushed onto the path, and the node is then marked visited and
appended to the result.  Returns `none` when the fuel runs out (never, for the
fuel chosen by `resolve_service_order`). -/
def visitAll (g : Graph) : Nat → List Str → List Str → List Str → List Str →
    Option (Except DockerError (List Str × List Str))
  | 0, _, _, _, _ => none
  | _ + 1, [], visited, _, result => some (.ok (visited, result))
  | fuel + 1, node :: rest, visited, temp, result =>
    if node ∈ temp then
      some (.error (.ValidationError (lit "Circular dependency detected")))
    else if node ∈ visited then
      visitAll g fuel rest visited temp result
    else
      match lookupDeps g node with
      | some deps =>
        match visitAll g fuel deps visited (node :: temp) result with
        | none => none
        | some (.error e) => some (.error e)
        | some (.ok (v1, r1)) => visitAll g fuel rest (node :: v1) temp (r1 ++ [node])
      | none => visitAll g fuel rest (node :: visited) temp (result ++ [node])

/-- Fuel that always suffices for `visitAll` on the full key list (proved in
`visitAll_isSome_of_le`). -/
def fuelBound (g : Graph) : Nat :=
  (keysOf g).length + 1 + (g.map (fun p => p.2.length + 1)).sum

/-- Topological sort of the dependency graph, as in
`ComposeConfig::resolve_service_order`.  The fuel-exhaustion branch is
unreachable (`resolveGraph_ne_fuel`). -/
def resolveGraph (g : Graph) : Except DockerError (List Str) :=
  match visitAll g (fuelBound g) (keysOf g) [] [] [] with
  | some (.ok (_, result)) => .ok result
  | some (.error e) => .error e
  | none => .error (.ValidationError (lit "fuel exhausted"))

/-! ### The service and compose configuration records (`src/config/compose.rs`)

Only the fields read by the embedded operations (`depends_on`, `volumes`,
`environment`, `env_file`) are carried; the remaining fields of the Rust
`Service` struct are never touched by `resolve_service_order`,
`collect_volumes` or `resolve_env`. -/

/-- The three volume forms of `src/config/volume.rs`. -/
inductive VolumeType where
  | Named (name : Str)
  | Bind (source : Str) (target : Str) (read_only : Bool)
  | Config (name : Str) (driver : Option Str) (driver_opts : Option (List (Str × Str)))
deriving DecidableEq

/-- A service entry (the fields consumed by the embedded core operations). -/
structure Service where
  environment : Option (List (Str × Str)) := none
  env_file : Option (List Str) := none
  volumes : Option (List VolumeType) := none
  depends_on : Option (List Str) := none
deriving DecidableEq

/-- A compose configuration: version, services map and top-level volumes map,
both maps as association lists in iteration order. -/
structure ComposeConfig where
  version : Str
  services : List (Str × Service)
  volumes : List (Str × VolumeType)
deriving DecidableEq

/-- Builds the adjacency map of `resolve_service_order`: one entry per
service, `depends_on` defaulting to the empty list. -/
def buildGraph (services : List (Str × Service)) : Graph :=
  services.map (fun p => (p.1, p.2.depends_on.getD []))

/-- The full `ComposeConfig::resolve_service_order`. -/
def resolve_service_order (c : ComposeConfig) : Except DockerError (List Str) :=
  resolveGraph (buildGraph c.services)

/-! ### Order, reachability and potential for the resolver proofs -/

/-- The first occurrence of `d` strictly precedes the first occurrence of `s`
in the list. -/
def before : List Str → Str → Str → Prop
  | [], _, _ => False
  | x :: xs, d, s => (x = d ∧ x ≠ s ∧ s ∈ xs) ∨ (x ≠ d ∧ x ≠ s ∧ before xs d s)

/-- A dependency edge of the adjacency map. -/
def Edge (g : Graph) (a b : Str) : Prop := ∃ ds, lookupDeps g a = some ds ∧ b ∈ ds

/-- Reachability along one or more dependency edges. -/
inductive Reach (g : Graph) : Str → Str → Prop
  | single {a b : Str} : Edge g a b → Reach g a b
  | head {a b c : Str} : Edge g a b → Reach g b c → Reach g a c

/-- The dependency graph has no (nonempty) cycle. -/
def Acyclic (g : Graph) : Prop := ∀ n, ¬ Reach g n n

/-- The visited set and the result vector always hold the same nodes. -/
def Sync (v r : List Str) : Prop := ∀ x, x ∈ v ↔ x ∈ r

/-- Every node of the result is preceded by each of its dependencies. -/
def Good (g : Graph) (r : List Str) : Prop :=
  ∀ s ds d, s ∈ r → lookupDeps g s = some ds → d ∈ ds → before r d s

/-- The node occurs in some `depends_on` list of the graph. -/
def FromDeps (g : Graph) (x : Str) : Prop :=
  ∃ s ds, lookupDeps g s = some ds ∧ x ∈ ds

/-- Remaining work potential: one unit per list element plus one per entry of
the graph that is neither visited nor on the path. -/
def pot (g : Graph) (visited temp : List Str) : Nat :=
  ((g.filter fun p => decide (p.1 ∉ visited ∧ p.1 ∉ temp)).map
    (fun p => p.2.length + 1)).sum

/-! ### Volume collection (`ComposeConfig::collect_volumes`)

The Rust code walks every service's volume list, and for every `Named` volume
whose key (the text before the first `:`) is absent from the top-level
`volumes` map inserts it into a `used_volumes` map (`HashMap::insert`, so a
later reference with the same key replaces an earlier one); finally
`self.volumes.extend(used_volumes)`. -/

/-- The key of a named volume reference:
`name.split(':').next().unwrap_or(name)`. -/
def volumeKey (name : Str) : Str := (splitOnChar ':' name).headD name

/-- Inner loop of `collect_volumes` over one service's volume list. -/
def collectUsedVols (volumes : List (Str × VolumeType))
    (used : List (Str × VolumeType)) : List VolumeType → List (Str × VolumeType)
  | [] => used
  | v :: vs =>
    match v with
    | .Named name =>
      let volume_name := volumeKey name
      if (alookup volumes volume_name).isSome then collectUsedVols volumes used vs
      else collectUsedVols volumes (mapInsert used volume_name (.Named name)) vs
    | _ => collectUsedVols volumes used vs

/-- Outer loop of `collect_volumes` over the services. -/
def collectUsedSvcs (volumes : List (Str × VolumeType))
    (used : List (Str × VolumeType)) : List (Str × Service) → List (Str × VolumeType)
  | [] => used
  | (_, s) :: rest =>
    collectUsedSvcs volumes (collectUsedVols volumes used (s.volumes.getD [])) rest

/-- `ComposeConfig::collect_volumes`. -/
def collect_volumes (c : ComposeConfig) : ComposeConfig :=
  { c with volumes := extendMap c.volumes (collectUsedSvcs c.volumes [] c.services) }

/-! ### Field-level environment resolution (`ComposeConfig::resolve_env_value`)

`resolve_env_value` scans the value with the regex
`\$\{([^\x7d]+)\}|\$([a-zA-Z_][a-zA-Z0-9_]*)` (note: the curly form here
forbids only `\x7d` in the name, unlike the substitution engine of
`src/parser/env.rs`), and for every capture replaces every occurrence of the
full match in the running result.  The replacement comes from the explicit
`env_vars` map, or, when absent there, from the ambient process environment
(`std::env::var`), or from the `:-` default, or is the empty string.  The
ambient environment is modelled as an explicit lookup function `sysEnv`. -/

/-- Match attempt for `\{([^\x7d]+)\}` immediately after a `$` (the name may
contain `{` and `:`). -/
def matchCurlyFull : Str → Option (Str × Str)
  | [] => none
  | c0 :: rest =>
    if c0 = '{' then
      let name := rest.takeWhile fun c => !(c == '}')
      let r1 := rest.dropWhile fun c => !(c == '}')
      if name = [] then none
      else
        match r1 with
        | '}' :: r2 => some (name, r2)
        | _ => none
    else none

/-- The capture scan of `resolve_env_value`: the list of
`(full match, captured variable text)` pairs, left to right. -/
def resolveCaptures : Nat → Str → List (Str × Str)
  | 0, _ => []
  | _ + 1, [] => []
  | fuel + 1, c :: rest =>
    if c = '$' then
      match matchCurlyFull rest with
      | some (name, r) => ('$' :: '{' :: (name ++ ['}']), name) :: resolveCaptures fuel r
      | none =>
        match matchBareAt rest with
        | some (name, r) => ('$' :: name, name) :: resolveCaptures fuel r
        | none => resolveCaptures fuel rest
    else resolveCaptures fuel rest

/-- Rust `String::replace`: replaces every (non-overlapping, left-to-right)
occurrence of `pat` by `repl`; replacements are not re-scanned.  All patterns
passed by `resolve_env_value` are nonempty, so fuel equal to the scanned
length suffices. -/
def replaceAll : Nat → Str → Str → Str → Str
  | 0, s, _, _ => s
  | _ + 1, [], _, _ => []
  | fuel + 1, c :: rest, pat, repl =>
    if pat ≠ [] ∧ startsWithStr (c :: rest) pat then
      repl ++ replaceAll fuel ((c :: rest).drop pat.length) pat repl
    else c :: replaceAll fuel rest pat repl

/-- The variable name inside a capture: the part before the first `:-`, or the
whole capture when no `:-` occurs. -/
def capName (var : Str) : Str :=
  match splitOnceSub (lit ":-") var with
  | some (n, _) => n
  | none => var

/-- The default inside a capture: the part after the first `:-`, if any. -/
def capDefault (var : Str) : Option Str :=
  match splitOnceSub (lit ":-") var with
  | some (_, d) => some d
  | none => none

/-- One replacement step of the `resolve_env_value` loop. -/
def resolveStep (env_vars sysEnv : Str → Option Str) (result : Str)
    (cap : Str × Str) : Str :=
  let name := capName cap.2
  let repl :=
    match env_vars name with
    | some v => v
    | none =>
      match sysEnv name with
      | some v => v
      | none => (capDefault cap.2).getD []
  replaceAll result.length result cap.1 repl

/-- `ComposeConfig::resolve_env_value`, with the ambient process environment
(`std::env::var`) made an explicit argument `sysEnv`. -/
def resolve_env_value (value : Str) (env_vars sysEnv : Str → Option Str) : Str :=
  (resolveCaptures value.length value).foldl (resolveStep env_vars sysEnv) value

/-- Helper of `resolve_env`: resolves every string field of a volume. -/
def resolve_volume (v : VolumeType) (env_vars sysEnv : Str → Option Str) : VolumeType :=
  match v with
  | .Named name => .Named (resolve_env_value name env_vars sysEnv)
  | .Bind source target ro =>
    .Bind (resolve_env_value source env_vars sysEnv)
      (resolve_env_value target env_vars sysEnv) ro
  | .Config name driver driver_opts =>
    .Config (resolve_env_value name env_vars sysEnv)
      (driver.map (fun d => resolve_env_value d env_vars sysEnv))
      (driver_opts.map (fun opts =>
        opts.map (fun p => (p.1, resolve_env_value p.2 env_vars sysEnv))))

/-- `ComposeConfig::resolve_env`: resolves the environment values and volumes
of every service and the top-level volume configurations. -/
def resolve_env (c : ComposeConfig) (env_vars sysEnv : Str → Option Str) : ComposeConfig :=
  { c with
    services := c.services.map (fun p =>
      (p.1,
        { p.2 with
          environment := p.2.environment.map (fun env =>
            env.map (fun q => (q.1, resolve_env_value q.2 env_vars sysEnv)))
          volumes := p.2.volumes.map (fun vols =>
            vols.map (fun v => resolve_volume v env_vars sysEnv)) }))
    volumes := c.volumes.map (fun p => (p.1, resolve_volume p.2 env_vars sysEnv)) }

/-! ### Memory-size strings (`parse_memory_string` in `src/config/requirements.rs`)

`memory.split_at(len - 1)` splits off the final character; the numeric part is
parsed as `i64` and scaled by the binary unit.  On the empty string the Rust
code panics (`len - 1` underflows), modelled as `none`.  The `i64`
multiplication is modelled with an explicit two's-complement wrap, which is
the release-mode overflow behaviour; the theorems only use in-range products,
where the wrap is the identity. -/

/-- Two's-complement wrap into the `i64` range. -/
def wrap64 (x : Int) : Int := (x + 2 ^ 63) % 2 ^ 64 - 2 ^ 63

/-- `parse_memory_string`; `none` models the panic on the empty string. -/
def parse_memory_string (memory : Str) : Option (Except DockerError Int) :=
  if memory = [] then none
  else
    let num := memory.take (memory.length - 1)
    let unit := memory.drop (memory.length - 1)
    match parseI64 num with
    | none =>
      some (.error (.InvalidResourceLimit (lit "Invalid memory value: " ++ memory)))
    | some base =>
      if unit.map Char.toUpper = lit "K" then some (.ok (wrap64 (base * 1024)))
      else if unit.map Char.toUpper = lit "M" then
        some (.ok (wrap64 (base * 1024 * 1024)))
      else if unit.map Char.toUpper = lit "G" then
        some (.ok (wrap64 (base * 1024 * 1024 * 1024)))
      else
        some (.error (.InvalidResourceLimit (lit "Invalid memory unit: " ++ unit)))

/-! ### External crate helpers for the Dockerfile parser

`shell_words::split`/`join` and `serde_json::from_str::<Vec<String>>` are
dependencies whose sources are not part of this repository; they are modelled
from the spec. -/

/-- The single-quote character (ASCII 39). -/
def squoteChar : Char := Char.ofNat 39

/-- The backtick character (ASCII 96). -/
def btickChar : Char := Char.ofNat 96

/-- Modelled from the spec: worker for the POSIX-shell-like word splitter of
the `shell_words` crate (`mode`: 0 unquoted, 1 single-quoted, 2 double-quoted;
`curr` holds the current word reversed, `acc` the finished words reversed). -/
def shellSplitAux : Str → Nat → Bool → Str → List Str → Option (List Str)
  | [], mode, inWord, curr, acc =>
    if mode ≠ 0 then none
    else if inWord then some ((curr.reverse :: acc).reverse)
    else some acc.reverse
  | c :: rest, mode, inWord, curr, acc =>
    if mode = 1 then
      if c = squoteChar then shellSplitAux rest 0 true curr acc
      else shellSplitAux rest 1 true (c :: curr) acc
    else if mode = 2 then
      if c = '"' then shellSplitAux rest 0 true curr acc
      else if c = '\\' then
        match rest with
        | [] => none
        | d :: rest' =>
          if d = '"' ∨ d = '\\' ∨ d = '$' ∨ d = btickChar then
            shellSplitAux rest' 2 true (d :: curr) acc
          else shellSplitAux rest' 2 true (d :: '\\' :: curr) acc
      else shellSplitAux rest 2 true (c :: curr) acc
    else
      if isWS c then
        if inWord then shellSplitAux rest 0 false [] (curr.reverse :: acc)
        else shellSplitAux rest 0 false [] acc
      else if c = squoteChar then shellSplitAux rest 1 true curr acc
      else if c = '"' then shellSplitAux rest 2 true curr acc
      else if c = '\\' then
        match rest with
        | [] => none
        | d :: rest' => shellSplitAux rest' 0 true (d :: curr) acc
      else shellSplitAux rest 0 true (c :: curr) acc

/-- Modelled from the spec: `shell_words::split`; `none` is the unbalanced
quote error ("missing closing quote"). -/
def shellSplit (s : Str) : Option (List Str) := shellSplitAux s 0 false [] []

/-- Characters that survive shell quoting verbatim. -/
def shellSafeChar (c : Char) : Bool :=
  c.isAlphanum || c == '_' || c == '-' || c == '.' || c == ',' || c == ':' ||
    c == '/' || c == '@' || c == '=' || c == '+'

/-- Modelled from the spec: the quoting rule of `shell_words::join` — an empty
word becomes a pair of single quotes, a word of safe characters is kept
verbatim, and anything else is single-quoted with embedded single quotes
escaped. -/
def shellQuote (w : Str) : Str :=
  if w = [] then [squoteChar, squoteChar]
  else if w.all shellSafeChar then w
  else
    [squoteChar] ++
      (w.foldr (fun c acc =>
        if c = squoteChar then [squoteChar, '\\', squoteChar, squoteChar] ++ acc
        else c :: acc) []) ++ [squoteChar]

/-- Modelled from the spec: `shell_words::join`. -/
def shellJoin (ws : List Str) : Str := joinSpace (ws.map shellQuote)

/-- Drops leading ASCII whitespace. -/
def skipWs (s : Str) : Str := s.dropWhile isWS

/-- Modelled from the spec: body of a JSON string after the opening quote;
returns the decoded content and the text after the closing quote.  The
`\uXXXX` escape form is not modelled (no input below uses it). -/
def jsonStringBody : Str → Option (Str × Str)
  | [] => none
  | '"' :: rest => some ([], rest)
  | '\\' :: rest =>
    match rest with
    | [] => none
    | d :: rest' =>
      let esc : Option Char :=
        if d = '"' then some '"'
        else if d = '\\' then some '\\'
        else if d = '/' then some '/'
        else if d = 'n' then some '\n'
        else if d = 't' then some '\t'
        else if d = 'r' then some '\r'
        else if d = 'b' then some '\x08'
        else if d = 'f' then some '\x0c'
        else none
      match esc with
      | some e => (jsonStringBody rest').map (fun p => (e :: p.1, p.2))
      | none => none
  | c :: rest => (jsonStringBody rest).map (fun p => (c :: p.1, p.2))

/-- Modelled from the spec: the element loop of a JSON string array. -/
def jsonArrayItems : Nat → Str → List Str → Option (List Str)
  | 0, _, _ => none
  | fuel + 1, s, acc =>
    match skipWs s with
    | '"' :: rest =>
      match jsonStringBody rest with
      | none => none
      | some (content, rest') =>
        match skipWs rest' with
        | ',' :: rest'' => jsonArrayItems fuel rest'' (acc ++ [content])
        | ']' :: rest'' => if skipWs rest'' = [] then some (acc ++ [content]) else none
        | _ => none
    | _ => none

/-- Modelled from the spec: `serde_json::from_str::<Vec<String>>`. -/
def jsonStringArray (s : Str) : Option (List Str) :=
  match skipWs s with
  | '[' :: rest =>
    match skipWs rest with
    | ']' :: rest' => if skipWs rest' = [] then some [] else none
    | _ => jsonArrayItems s.length rest []
  | _ => none

/-! ### The Dockerfile document (`src/config/docker_file.rs`) -/

/-- The `DockerCommand` union, one variant per Dockerfile directive. -/
inductive DockerCommand where
  | Add (sources : List Str) (dest : Str) (chown : Option Str)
  | Arg (name : Str) (default_value : Option Str)
  | Cmd (command : List Str)
  | Copy (source : Str) (dest : Str) (chown : Option Str)
  | Entrypoint (command : List Str)
  | Env (key : Str) (value : Str)
  | Expose (port : Nat) (protocol : Option Str)
  | Healthcheck (command : List Str) (interval : Option Str) (timeout : Option Str)
      (start_period : Option Str) (retries : Option Nat)
  | Label (labels : List (Str × Str))
  | Maintainer (name : Str)
  | Onbuild (command : DockerCommand)
  | Run (command : Str)
  | Shell (shell : List Str)
  | StopSignal (signal : Str)
  | User (user : Str) (group : Option Str)
  | Volume (paths : List Str)
  | Workdir (path : Str)
deriving DecidableEq

/-- The parsed Dockerfile: base image plus the ordered command list. -/
structure DockerfileConfig where
  base_image : Str
  commands : List DockerCommand
deriving DecidableEq

/-- Decimal rendering of a number. -/
def natToStr (n : Nat) : Str := lit (toString n)

/-- The `Display` implementation for `DockerCommand`: one line of Dockerfile
text per command. -/
def renderCommand : DockerCommand → Str
  | .Add sources dest chown =>
    match chown with
    | some ch => lit "ADD --chown=" ++ ch ++ [' '] ++ joinSpace sources ++ [' '] ++ dest
    | none => lit "ADD " ++ joinSpace sources ++ [' '] ++ dest
  | .Arg name dv =>
    match dv with
    | some v => lit "ARG " ++ name ++ ['='] ++ v
    | none => lit "ARG " ++ name
  | .Cmd command => lit "CMD " ++ shellJoin command
  | .Copy source dest chown =>
    match chown with
    | some ch => lit "COPY --chown=" ++ ch ++ [' '] ++ source ++ [' '] ++ dest
    | none => lit "COPY " ++ source ++ [' '] ++ dest
  | .Entrypoint command => lit "ENTRYPOINT " ++ shellJoin command
  | .Env key value => lit "ENV " ++ key ++ ['='] ++ value
  | .Expose port protocol =>
    match protocol with
    | some proto => lit "EXPOSE " ++ natToStr port ++ ['/'] ++ proto
    | none => lit "EXPOSE " ++ natToStr port
  | .Healthcheck command interval timeout start_period retries =>
    let options :=
      (match interval with | some i => [lit "--interval=" ++ i] | none => []) ++
      (match timeout with | some t => [lit "--timeout=" ++ t] | none => []) ++
      (match start_period with | some sp => [lit "--start-period=" ++ sp] | none => []) ++
      (match retries with | some r => [lit "--retries=" ++ natToStr r] | none => [])
    let options_str := if options = [] then [] else [' '] ++ joinSpace options
    lit "HEALTHCHECK" ++ options_str ++ lit "  CMD " ++ shellJoin command
  | .Label labels =>
    lit "LABEL " ++ joinSpace (labels.map (fun p => p.1 ++ ['=', '"'] ++ p.2 ++ ['"']))
  | .Maintainer name => lit "MAINTAINER " ++ name
  | .Onbuild command => lit "ONBUILD " ++ renderCommand command
  | .Run command => lit "RUN " ++ command
  | .Shell shell => lit "SHELL " ++ shellJoin shell
  | .StopSignal signal => lit "STOPSIGNAL " ++ signal
  | .User user group =>
    match group with
    | some gr => lit "USER " ++ user ++ [':'] ++ gr
    | none => lit "USER " ++ user
  | .Volume paths => lit "VOLUME " ++ shellJoin paths
  | .Workdir path => lit "WORKDIR " ++ path

/-- The `Display` implementation for `DockerfileConfig`: the `FROM` line
followed by one line per command, each newline-terminated. -/
def renderConfig (c : DockerfileConfig) : Str :=
  lit "FROM " ++ c.base_image ++ ['\n'] ++
    (c.commands.map (fun cmd => renderCommand cmd ++ ['\n'])).flatten

/-! ### The Dockerfile parser (`src/parser/docker_file.rs`) -/

/-- Repeated stripping of a leading `--chown=` (Rust `trim_start_matches`). -/
def stripChown : Nat → Str → Str
  | 0, s => s
  | fuel + 1, s =>
    if startsWithStr s (lit "--chown=") then stripChown fuel (s.drop 8) else s

/-- `parse_chown_option`: when the arguments begin with `--chown=`, the first
whitespace-delimited token yields the owner and the remainder the positional
arguments. -/
def parse_chown_option (args : Str) : Option Str × Str :=
  if startsWithStr args (lit "--chown=") then
    match splitOnceChar ' ' args with
    | some (first, rest) => (some (stripChown first.length first), rest)
    | none => (some (stripChown args.length args), [])
  else (none, args)

/-- The dual JSON-array/shell-split argument form used by `CMD`, `ENTRYPOINT`,
`SHELL` and `VOLUME`.  The serde error text is abbreviated to its fixed
prefix; no theorem below inspects it. -/
def parseWordList (args : Str) : Except DockerError (List Str) :=
  if startsWithStr (trimStr args) (lit "[") then
    match jsonStringArray args with
    | some arr => .ok arr
    | none => .error (.DockerfileError (lit "Invalid JSON array"))
  else
    match shellSplit args with
    | some ws => .ok ws
    | none => .error (.DockerfileError (lit "missing closing quote"))

/-- The `EXPOSE` loop: one `Expose` command per whitespace-separated
`port[/proto]` token; a port that fails to parse as `u16` aborts with the
"Invalid port number" error naming the offending text. -/
def exposeLoop (config : DockerfileConfig) : List Str → Except DockerError DockerfileConfig
  | [] => .ok config
  | tok :: rest =>
    let parts := splitOnChar '/' tok
    let p0 := parts.headD []
    match parseU16 (trimStr p0) with
    | none => .error (.DockerfileError (lit "Invalid port number: " ++ p0))
    | some port =>
      exposeLoop
        { config with commands := config.commands ++
            [.Expose port ((parts.get? 1).map trimStr)] } rest

/-- The `HEALTHCHECK` flag/CMD loop.  Tokens that are neither `CMD` nor start
with `--` are skipped; after `CMD` the remaining tokens are re-joined and
shell-split, and an empty or unsplittable command produces no instruction. -/
def healthcheckLoop (config : DockerfileConfig) :
    List Str → Option Str → Option Str → Option Str → Option Nat →
    Except DockerError DockerfileConfig
  | [], _, _, _, _ => .error (.DockerfileError (lit "HEALTHCHECK must include CMD"))
  | tok :: rest, interval, timeout, start_period, retries =>
    if tok = lit "CMD" then
      let command := (shellSplit (joinSpace rest)).getD []
      if command = [] then .ok config
      else
        .ok { config with commands := config.commands ++
          [.Healthcheck command interval timeout start_period retries] }
    else if startsWithStr tok (lit "--") then
      match splitOnceChar '=' tok with
      | some (flag, inline) =>
        if flag = lit "--interval" then
          healthcheckLoop config rest (some inline) timeout start_period retries
        else if flag = lit "--timeout" then
          healthcheckLoop config rest interval (some inline) start_period retries
        else if flag = lit "--start-period" then
          healthcheckLoop config rest interval timeout (some inline) retries
        else if flag = lit "--retries" then
          match parseU32 inline with
          | some n => healthcheckLoop config rest interval timeout start_period (some n)
          | none => .error (.DockerfileError (lit "Invalid value for --retries flag"))
        else .error (.DockerfileError (lit "Invalid HEALTHCHECK flag: " ++ flag))
      | none =>
        if tok = lit "--interval" ∨ tok = lit "--timeout" ∨ tok = lit "--start-period" then
          match rest with
          | [] => .error (.DockerfileError (lit "Missing value for " ++ tok ++ lit " flag"))
          | v :: rest' =>
            if tok = lit "--interval" then
              healthcheckLoop config rest' (some v) timeout start_period retries
            else if tok = lit "--timeout" then
              healthcheckLoop config rest' interval (some v) start_period retries
            else healthcheckLoop config rest' interval timeout (some v) retries
        else if tok = lit "--retries" then
          match rest with
          | [] => .error (.DockerfileError (lit "Invalid value for --retries flag"))
          | v :: rest' =>
            match parseU32 v with
            | some n => healthcheckLoop config rest' interval timeout start_period (some n)
            | none => .error (.DockerfileError (lit "Invalid value for --retries flag"))
        else .error (.DockerfileError (lit "Invalid HEALTHCHECK flag: " ++ tok))
    else healthcheckLoop config rest interval timeout start_period retries

/-- Strips every leading and trailing double quote (Rust `trim_matches('"')`). -/
def trimQuotes (s : Str) : Str :=
  ((s.dropWhile (fun c => c == '"')).reverse.dropWhile (fun c => c == '"')).reverse

/-- The `LABEL` scanner: accumulates key/value pairs, splitting on the first
unquoted `=` per pair and on unquoted spaces between pairs. -/
def labelLoop (labels : List (Str × Str)) (current_key current_value : Str)
    (in_quotes : Bool) : Str → List (Str × Str)
  | [] =>
    if current_key ≠ [] ∧ current_value ≠ [] then
      mapInsert labels (trimQuotes current_key) (trimQuotes current_value)
    else labels
  | c :: rest =>
    if c = '"' then labelLoop labels current_key current_value (!in_quotes) rest
    else if c = '=' ∧ in_quotes = false ∧ current_key = [] then
      labelLoop labels (trimStr current_value) [] in_quotes rest
    else if c = ' ' ∧ in_quotes = false ∧ current_key ≠ [] then
      if current_value ≠ [] then
        labelLoop (mapInsert labels (trimQuotes current_key) (trimQuotes current_value))
          [] [] in_quotes rest
      else labelLoop labels current_key current_value in_quotes rest
    else labelLoop labels current_key (current_value ++ [c]) in_quotes rest

/-- The per-line dispatcher `parse_command`.  A line without a space is the
"Invalid command syntax" error before any keyword dispatch.  The fuel only
bounds the `ONBUILD` recursion (the line length plus one always suffices);
`none` models fuel exhaustion and the one genuine panic of the source (`COPY`
with a `--chown=` flag and a single positional token, where `parts[1]` is out
of bounds) — no theorem below reaches either. -/
def parse_command : Nat → DockerfileConfig → Str → Option (Except DockerError DockerfileConfig)
  | 0, _, _ => none
  | fuel + 1, config, line =>
    match splitOnceChar ' ' line with
    | none => some (.error (.DockerfileError (lit "Invalid command syntax")))
    | some (p0, p1) =>
      let command := p0.map Char.toUpper
      let args := trimStr p1
      if command = lit "FROM" then some (.ok { config with base_image := args })
      else if command = lit "COPY" then
        let parts := splitWhitespace args
        if parts.length < 2 then
          some (.error (.DockerfileError (lit "COPY requires source and destination")))
        else
          let co := parse_chown_option args
          match splitWhitespace co.2 with
          | s :: d :: _ =>
            some (.ok { config with commands := config.commands ++ [.Copy s d co.1] })
          | _ => none
      else if command = lit "EXPOSE" then
        some (exposeLoop config (splitWhitespace args))
      else if command = lit "ONBUILD" then
        let args := trimStr args
        if args = [] then
          some (.error (.DockerfileError (lit "ONBUILD requires one argument")))
        else
          match parse_command fuel ⟨[], []⟩ args with
          | none => none
          | some (.error e) => some (.error e)
          | some (.ok onbuild_config) =>
            match onbuild_config.commands.getLast? with
            | some cmd =>
              some (.ok { config with commands := config.commands ++ [.Onbuild cmd] })
            | none => some (.error (.DockerfileError (lit "Invalid ONBUILD command")))
      else if command = lit "ADD" then
        let co := parse_chown_option args
        let sad : Except DockerError (List Str) :=
          if startsWithStr (trimStr args) (lit "[") then
            match jsonStringArray args with
            | some arr => .ok arr
            | none => .error (.DockerfileError (lit "Invalid JSON array"))
          else
            match shellSplit co.2 with
            | some ws => .ok ws
            | none => .error (.DockerfileError (lit "missing closing quote"))
        match sad with
        | .error e => some (.error e)
        | .ok sources_and_dest =>
          if sources_and_dest.length ≥ 2 then
            some (.ok { config with commands := config.commands ++
              [.Add (sources_and_dest.take (sources_and_dest.length - 1))
                ((sources_and_dest.getLast?).getD []) co.1] })
          else
            some (.error (.DockerfileError
              (lit "ADD requires at least one source and destination")))
      else if command = lit "ARG" then
        let parts := splitOnChar '=' args
        some (.ok { config with commands := config.commands ++
          [.Arg (trimStr (parts.headD [])) ((parts.get? 1).map trimStr)] })
      else if command = lit "CMD" then
        match parseWordList args with
        | .error e => some (.error e)
        | .ok ws => some (.ok { config with commands := config.commands ++ [.Cmd ws] })
      else if command = lit "ENTRYPOINT" then
        match parseWordList args with
        | .error e => some (.error e)
        | .ok ws =>
          some (.ok { config with commands := config.commands ++ [.Entrypoint ws] })
      else if command = lit "ENV" then
        match splitOnceChar '=' args with
        | some (k, v) =>
          some (.ok { config with commands := config.commands ++
            [.Env (trimStr k) (trimStr v)] })
        | none => some (.ok config)
      else if command = lit "HEALTHCHECK" then
        if trimStr args = lit "NONE" then some (.ok config)
        else some (healthcheckLoop config (splitWhitespace args) none none none none)
      else if command = lit "LABEL" then
        some (.ok { config with commands := config.commands ++
          [.Label (labelLoop [] [] [] false args)] })
      else if command = lit "MAINTAINER" then
        some (.ok { config with commands := config.commands ++ [.Maintainer args] })
      else if command = lit "RUN" then
        some (.ok { config with commands := config.commands ++ [.Run args] })
      else if command = lit "SHELL" then
        match parseWordList args with
        | .error e => some (.error e)
        | .ok ws => some (.ok { config with commands := config.commands ++ [.Shell ws] })
      else if command = lit "STOPSIGNAL" then
        some (.ok { config with commands := config.commands ++ [.StopSignal args] })
      else if command = lit "USER" then
        let parts := splitOnChar ':' args
        some (.ok { config with commands := config.commands ++
          [.User (parts.headD []) (parts.get? 1)] })
      else if command = lit "VOLUME" then
        match parseWordList args with
        | .error e => some (.error e)
        | .ok ws => some (.ok { config with commands := config.commands ++ [.Volume ws] })
      else if command = lit "WORKDIR" then
        some (.ok { config with commands := config.commands ++ [.Workdir args] })
      else some (.error (.DockerfileError (lit "Unknown command: " ++ command)))

/-- Rust `str::lines` (the `\r\n` normalisation is omitted: `parse` trims
every line, which subsumes it for the carriage returns at issue). -/
def linesOf (s : Str) : List Str :=
  if s = [] then []
  else
    let pieces := splitOnChar '\n' s
    if pieces.getLast? = some [] then pieces.dropLast else pieces

/-- Splits off a final character equal to `c` (Rust `strip_suffix`). -/
def stripSuffixChar (c : Char) (s : Str) : Option Str :=
  match s.reverse with
  | d :: r => if d = c then some r.reverse else none
  | [] => none

/-- The line loop of `parse`: blank lines and `#` comments are skipped, a
trailing backslash accumulates a continuation (replacing the backslash by a
space), and a leftover unfinished continuation at end of input is dropped. -/
def parseLines : List Str → DockerfileConfig → Str → Except DockerError DockerfileConfig
  | [], config, _ => .ok config
  | l :: ls, config, current =>
    let line := trimStr l
    if line = [] then parseLines ls config current
    else if startsWithStr line (lit "#") then parseLines ls config current
    else
      match stripSuffixChar '\\' line with
      | some s => parseLines ls config (current ++ s ++ [' '])
      | none =>
        if current ≠ [] then
          match parse_command ((current ++ line).length + 1) config (current ++ line) with
          | some (.ok c2) => parseLines ls c2 []
          | some (.error e) => .error e
          | none => .error (.DockerfileError (lit "panic"))
        else
          match parse_command (line.length + 1) config line with
          | some (.ok c2) => parseLines ls c2 []
          | some (.error e) => .error e
          | none => .error (.DockerfileError (lit "panic"))

/-- The Dockerfile `parse` entry point. -/
def parse (content : Str) : Except DockerError DockerfileConfig :=
  parseLines (linesOf content) ⟨[], []⟩ []

lemma before_mem_left {l d s} (h : before l d s) : d ∈ l := by
  induction l with
  | nil => exact h.elim
  | cons x xs ih =>
    rcases h with ⟨h1, _, _⟩ | ⟨_, _, h3⟩
    · simp [h1]
    · simp [ih h3]

lemma before_mem_right {l d s} (h : before l d s) : s ∈ l := by
  induction l with
  | nil => exact h.elim
  | cons x xs ih =>
    rcases h with ⟨_, _, h2⟩ | ⟨_, _, h3⟩
    · simp [h2]
    · simp [ih h3]

lemma before_irrefl {l n} : ¬ before l n n := by
  induction l with
  | nil => exact id
  | cons x xs ih =>
    rintro (⟨h1, h2, _⟩ | ⟨_, _, h3⟩)
    · exact h2 h1
    · exact ih h3

lemma before_trans {l a b c} (h1 : before l a b) (h2 : before l b c) :
    before l a c := by
  induction l with
  | nil => exact h1.elim
  | cons x xs ih =>
    rcases h1 with ⟨e1, ne1, m1⟩ | ⟨ne1, ne1', h1'⟩
    · rcases h2 with ⟨e2, ne2, _⟩ | ⟨ne2, ne2', h2'⟩
      · exact absurd e2 ne1
      · exact Or.inl ⟨e1, ne2', before_mem_right h2'⟩
    · rcases h2 with ⟨e2, _, _⟩ | ⟨ne2, ne2', h2'⟩
      · exact absurd e2 ne1'
      · exact Or.inr ⟨ne1, ne2', ih h1' h2'⟩

lemma before_append {l t d s} (h : before l d s) : before (l ++ t) d s := by
  induction l with
  | nil => exact h.elim
  | cons x xs ih =>
    rcases h with ⟨h1, h2, h3⟩ | ⟨h1, h2, h3⟩
    · exact Or.inl ⟨h1, h2, by simp [h3]⟩
    · exact Or.inr ⟨h1, h2, ih h3⟩

lemma before_push {l d s} (hd : d ∈ l) (hs : s ∉ l) : before (l ++ [s]) d s := by
  induction l with
  | nil => exact absurd hd (by simp)
  | cons x xs ih =>
    by_cases hx : x = d
    · exact Or.inl ⟨hx, fun e => hs (by simp [e]), by simp⟩
    · refine Or.inr ⟨hx, fun e => hs (by simp [e]), ?_⟩
      have hd' : d ∈ xs := by
        rcases List.mem_cons.mp hd with h | h
        · exact absurd h.symm hx
        · exact h
      exact ih hd' (fun m => hs (by simp [m]))

lemma lookupDeps_mem_keys {g : Graph} {n ds} (h : lookupDeps g n = some ds) :
    n ∈ keysOf g := by
  induction g with
  | nil => simp [lookupDeps] at h
  | cons p g ih =>
    rw [lookupDeps] at h
    by_cases hk : p.1 = n
    · simp [keysOf, hk]
    · simp [hk] at h
      simp [keysOf] at ih ⊢
      exact Or.inr (ih h)

lemma edge_mem_keys {g : Graph} {a b} (h : Edge g a b) : a ∈ keysOf g := by
  obtain ⟨ds, h1, _⟩ := h
  exact lookupDeps_mem_keys h1

lemma reach_trans_edge {g : Graph} {a b} (h : Reach g a b) :
    ∀ {c}, Edge g b c → Reach g a c := by
  induction h with
  | single e' => exact fun e => .head e' (.single e)
  | head e' _ ih => exact fun e => .head e' (ih e)

lemma pot_cons {p : Str × List Str} {g : Graph} {v t : List Str} :
    pot (p :: g) v t =
      (if p.1 ∉ v ∧ p.1 ∉ t then p.2.length + 1 else 0) + pot g v t := by
  by_cases h : p.1 ∉ v ∧ p.1 ∉ t
  · simp [pot, List.filter, h]
  · simp [pot, List.filter, h]

lemma pot_mono_visited {g : Graph} {v₁ v₂ t : List Str}
    (h : ∀ x ∈ v₁, x ∈ v₂) : pot g v₂ t ≤ pot g v₁ t := by
  induction g with
  | nil => simp [pot]
  | cons p g ih =>
    rw [pot_cons, pot_cons]
    have : (if p.1 ∉ v₂ ∧ p.1 ∉ t then p.2.length + 1 else 0) ≤
        (if p.1 ∉ v₁ ∧ p.1 ∉ t then p.2.length + 1 else 0) := by
      by_cases h2 : p.1 ∉ v₂ ∧ p.1 ∉ t
      · have : p.1 ∉ v₁ ∧ p.1 ∉ t := ⟨fun m => h2.1 (h _ m), h2.2⟩
        simp [h2, this]
      · simp [h2]
    omega

lemma pot_mono_temp {g : Graph} {v t₁ t₂ : List Str}
    (h : ∀ x ∈ t₁, x ∈ t₂) : pot g v t₂ ≤ pot g v t₁ := by
  induction g with
  | nil => simp [pot]
  | cons p g ih =>
    rw [pot_cons, pot_cons]
    have : (if p.1 ∉ v ∧ p.1 ∉ t₂ then p.2.length + 1 else 0) ≤
        (if p.1 ∉ v ∧ p.1 ∉ t₁ then p.2.length + 1 else 0) := by
      by_cases h2 : p.1 ∉ v ∧ p.1 ∉ t₂
      · have : p.1 ∉ v ∧ p.1 ∉ t₁ := ⟨h2.1, fun m => h2.2 (h _ m)⟩
        simp [h2, this]
      · simp [h2]
    omega

lemma pot_insert_temp {g : Graph} {v t : List Str} {node : Str} {deps : List Str}
    (hv : node ∉ v) (ht : node ∉ t) (hl : lookupDeps g node = some deps) :
    deps.length + 1 + pot g v (node :: t) ≤ pot g v t := by
  induction g with
  | nil => simp [lookupDeps] at hl
  | cons p g ih =>
    rw [lookupDeps] at hl
    by_cases hk : p.1 = node
    · rw [if_pos hk] at hl
      have hds : p.2 = deps := Option.some.inj hl
      rw [pot_cons, pot_cons]
      have h1 : ¬ (p.1 ∉ v ∧ p.1 ∉ node :: t) := fun h' => h'.2 (by simp [hk])
      have h2 : p.1 ∉ v ∧ p.1 ∉ t := by rw [hk]; exact ⟨hv, ht⟩
      rw [if_neg h1, if_pos h2, hds]
      have h3 : pot g v (node :: t) ≤ pot g v t :=
        pot_mono_temp (by intro x hx; simp [hx])
      omega
    · rw [if_neg hk] at hl
      rw [pot_cons, pot_cons]
      have heq : (if p.1 ∉ v ∧ p.1 ∉ node :: t then p.2.length + 1 else 0) =
          (if p.1 ∉ v ∧ p.1 ∉ t then p.2.length + 1 else 0) := by
        by_cases h2 : p.1 ∉ v ∧ p.1 ∉ t
        · have h3 : p.1 ∉ v ∧ p.1 ∉ node :: t := by
            refine ⟨h2.1, fun m => ?_⟩
            rcases List.mem_cons.mp m with h | h
            · exact hk h
            · exact h2.2 h
          rw [if_pos h2, if_pos h3]
        · have h3 : ¬ (p.1 ∉ v ∧ p.1 ∉ node :: t) := by
            intro h'
            exact h2 ⟨h'.1, fun m => h'.2 (by simp [m])⟩
          rw [if_neg h2, if_neg h3]
      have := ih hl
      omega

lemma pot_all (g : Graph) : pot g [] [] = (g.map (fun p => p.2.length + 1)).sum := by
  simp [pot]

lemma visitAll_mono {g : Graph} :
    ∀ (fuel : Nat) (nodes visited temp result : List Str) {v' r' : List Str},
      visitAll g fuel nodes visited temp result = some (.ok (v', r')) →
      ∀ x ∈ visited, x ∈ v' := by
  intro fuel
  induction fuel with
  | zero => intro nodes visited temp result v' r' h; simp [visitAll] at h
  | succ fuel ih =>
    intro nodes visited temp result v' r' h
    cases nodes with
    | nil =>
      simp only [visitAll, Option.some.injEq, Except.ok.injEq, Prod.mk.injEq] at h
      intro x hx
      rw [← h.1]
      exact hx
    | cons node rest =>
      simp only [visitAll] at h
      by_cases ht : node ∈ temp
      · rw [if_pos ht] at h; simp at h
      · rw [if_neg ht] at h
        by_cases hv : node ∈ visited
        · rw [if_pos hv] at h
          exact ih rest visited temp result h
        · rw [if_neg hv] at h
          split at h
          next deps hl =>
            split at h
            next hnest => cases h
            next e hnest => simp at h
            next v1 r1 hnest =>
              intro x hx
              have h1 := ih deps visited (node :: temp) result hnest x hx
              exact ih rest (node :: v1) temp (r1 ++ [node]) h x (by simp [h1])
          next hl =>
            intro x hx
            exact ih rest (node :: visited) temp (result ++ [node]) h x (by simp [hx])

lemma visitAll_isSome {g : Graph} :
    ∀ (fuel : Nat) (nodes visited temp result : List Str),
      nodes.length + 1 + pot g visited temp ≤ fuel →
      (visitAll g fuel nodes visited temp result).isSome := by
  intro fuel
  induction fuel with
  | zero => intro nodes visited temp result h; omega
  | succ fuel ih =>
    intro nodes visited temp result h
    cases nodes with
    | nil => simp [visitAll]
    | cons node rest =>
      simp only [visitAll]
      simp only [List.length_cons] at h
      by_cases ht : node ∈ temp
      · rw [if_pos ht]; simp
      · rw [if_neg ht]
        by_cases hv : node ∈ visited
        · rw [if_pos hv]
          apply ih
          omega
        · rw [if_neg hv]
          split
          next deps hl =>
            have hp := pot_insert_temp hv ht hl
            have hnest : (visitAll g fuel deps visited (node :: temp) result).isSome := by
              apply ih
              omega
            split
            next hnest2 => rw [hnest2] at hnest; simp at hnest
            next e hnest2 => simp
            next v1 r1 hnest2 =>
              apply ih
              have hmono : ∀ x ∈ visited, x ∈ node :: v1 := fun x hx =>
                List.mem_cons_of_mem _
                  (visitAll_mono fuel deps visited (node :: temp) result hnest2 x hx)
              have := pot_mono_visited (g := g) (t := temp) hmono
              omega
          next hl =>
            apply ih
            have : pot g (node :: visited) temp ≤ pot g visited temp :=
              pot_mono_visited (by intro x hx; simp [hx])
            omega

lemma visitAll_error_msg {g : Graph} :
    ∀ (fuel : Nat) (nodes visited temp result : List Str) {e : DockerError},
      visitAll g fuel nodes visited temp result = some (.error e) →
      e = .ValidationError (lit "Circular dependency detected") := by
  intro fuel
  induction fuel with
  | zero => intro nodes visited temp result e h; simp [visitAll] at h
  | succ fuel ih =>
    intro nodes visited temp result e h
    cases nodes with
    | nil => simp [visitAll] at h
    | cons node rest =>
      simp only [visitAll] at h
      by_cases ht : node ∈ temp
      · rw [if_pos ht] at h
        simp only [Option.some.injEq, Except.error.injEq] at h
        exact h.symm
      · rw [if_neg ht] at h
        by_cases hv : node ∈ visited
        · rw [if_pos hv] at h
          exact ih rest visited temp result h
        · rw [if_neg hv] at h
          split at h
          next deps hl =>
            split at h
            next hnest => cases h
            next e' hnest =>
              simp only [Option.some.injEq, Except.error.injEq] at h
              rw [← h]
              exact ih deps visited (node :: temp) result hnest
            next v1 r1 hnest =>
              exact ih rest (node :: v1) temp (r1 ++ [node]) h
          next hl =>
            exact ih rest (node :: visited) temp (result ++ [node]) h

lemma visitAll_no_error {g : Graph} (hacyc : Acyclic g) :
    ∀ (fuel : Nat) (nodes visited temp result : List Str) (e : DockerError),
      (∀ t ∈ temp, ∀ n ∈ nodes, Reach g t n) →
      visitAll g fuel nodes visited temp result ≠ some (.error e) := by
  intro fuel
  induction fuel with
  | zero => intro nodes visited temp result e _ h; simp [visitAll] at h
  | succ fuel ih =>
    intro nodes visited temp result e hpath h
    cases nodes with
    | nil => simp [visitAll] at h
    | cons node rest =>
      simp only [visitAll] at h
      by_cases ht : node ∈ temp
      · exact hacyc node (hpath node ht node (by simp))
      · rw [if_neg ht] at h
        by_cases hv : node ∈ visited
        · rw [if_pos hv] at h
          exact ih rest visited temp result e
            (fun t htm n hn => hpath t htm n (by simp [hn])) h
        · rw [if_neg hv] at h
          split at h
          next deps hl =>
            have hpathDeps : ∀ t ∈ node :: temp, ∀ d ∈ deps, Reach g t d := by
              intro t htm d hd
              rcases List.mem_cons.mp htm with rfl | htm'
              · exact .single ⟨deps, hl, hd⟩
              · exact reach_trans_edge (hpath t htm' node (by simp)) ⟨deps, hl, hd⟩
            split at h
            next hnest => cases h
            next e' hnest => exact ih deps visited (node :: temp) result e' hpathDeps hnest
            next v1 r1 hnest =>
              exact ih rest (node :: v1) temp (r1 ++ [node]) e
                (fun t htm n hn => hpath t htm n (by simp [hn])) h
          next hl =>
            exact ih rest (node :: visited) temp (result ++ [node]) e
              (fun t htm n hn => hpath t htm n (by simp [hn])) h

/-- Main invariant of the depth-first visit: on success the visited set and
the result stay synchronised and duplicate-free, the result is only extended,
every processed node ends up visited, nodes on the DFS path are never added,
every result node is traceable to the initial result, the node list or some
dependency list, and every result node's dependencies precede it. -/
lemma visitAll_invariant {g : Graph} :
    ∀ (fuel : Nat) (nodes visited temp result : List Str) {v' r' : List Str},
      visitAll g fuel nodes visited temp result = some (.ok (v', r')) →
      Sync visited result → result.Nodup → Good g result →
      (∀ x ∈ temp, x ∉ visited) →
      Sync v' r' ∧ r'.Nodup ∧ Good g r' ∧ (∃ pre, r' = result ++ pre) ∧
        (∀ n ∈ nodes, n ∈ v') ∧ (∀ x ∈ temp, x ∉ v') ∧
        (∀ x ∈ r', x ∈ result ∨ x ∈ nodes ∨ FromDeps g x) := by
  intro fuel
  induction fuel with
  | zero => intro nodes visited temp result v' r' h _ _ _ _; simp [visitAll] at h
  | succ fuel ih =>
    intro nodes visited temp result v' r' h hsync hnodup hgood hdisj
    cases nodes with
    | nil =>
      simp only [visitAll, Option.some.injEq, Except.ok.injEq, Prod.mk.injEq] at h
      obtain ⟨hv, hr⟩ := h
      subst hv
      subst hr
      exact ⟨hsync, hnodup, hgood, ⟨[], by simp⟩, by simp,
        fun x hx => hdisj x hx, fun x hx => Or.inl hx⟩
    | cons node rest =>
      simp only [visitAll] at h
      by_cases ht : node ∈ temp
      · rw [if_pos ht] at h; simp at h
      · rw [if_neg ht] at h
        by_cases hv : node ∈ visited
        · rw [if_pos hv] at h
          obtain ⟨sync', nodup', good', ⟨pre, hpre⟩, hrest, htempv, hprov⟩ :=
            ih rest visited temp result h hsync hnodup hgood hdisj
          have hnodev : node ∈ v' := by
            have h1 : node ∈ result := (hsync node).mp hv
            have h2 : node ∈ r' := by rw [hpre]; exact List.mem_append_left _ h1
            exact (sync' node).mpr h2
          refine ⟨sync', nodup', good', ⟨pre, hpre⟩, ?_, htempv, ?_⟩
          · intro n hn
            rcases List.mem_cons.mp hn with rfl | hn'
            · exact hnodev
            · exact hrest n hn'
          · intro x hx
            rcases hprov x hx with h1 | h1 | h1
            · exact Or.inl h1
            · exact Or.inr (Or.inl (List.mem_cons_of_mem _ h1))
            · exact Or.inr (Or.inr h1)
        · rw [if_neg hv] at h
          split at h
          next deps hl =>
            split at h
            next hnest => cases h
            next e hnest => simp at h
            next v1 r1 hnest =>
              obtain ⟨sync1, nodup1, good1, ⟨pre1, hpre1⟩, hdeps, htemp1, hprov1⟩ :=
                ih deps visited (node :: temp) result hnest hsync hnodup hgood
                  (by
                    intro x hx
                    rcases List.mem_cons.mp hx with rfl | hx'
                    · exact hv
                    · exact hdisj x hx')
              have hnodev1 : node ∉ v1 := htemp1 node (by simp)
              have hnoder1 : node ∉ r1 := fun m => hnodev1 ((sync1 node).mpr m)
              have sync2 : Sync (node :: v1) (r1 ++ [node]) := by
                intro x
                constructor
                · intro hx
                  rcases List.mem_cons.mp hx with rfl | hx'
                  · simp
                  · exact List.mem_append_left _ ((sync1 x).mp hx')
                · intro hx
                  rcases List.mem_append.mp hx with hx' | hx'
                  · exact List.mem_cons_of_mem _ ((sync1 x).mpr hx')
                  · simp at hx'
                    simp [hx']
              have nodup2 : (r1 ++ [node]).Nodup := by
                rw [List.nodup_append]
                exact ⟨nodup1, by simp, by
                  intro a ha hb
                  simp at hb
                  rw [hb] at ha
                  exact hnoder1 ha⟩
              have good2 : Good g (r1 ++ [node]) := by
                intro s ds d hs hld hd
                rcases List.mem_append.mp hs with hs' | hs'
                · exact before_append (good1 s ds d hs' hld hd)
                · simp at hs'
                  subst hs'
                  rw [hl] at hld
                  have hds : deps = ds := Option.some.inj hld
                  subst hds
                  have hdv1 : d ∈ v1 := hdeps d hd
                  exact before_push ((sync1 d).mp hdv1) hnoder1
              obtain ⟨sync', nodup', good', ⟨pre2, hpre2⟩, hrest, htempv, hprov2⟩ :=
                ih rest (node :: v1) temp (r1 ++ [node]) h sync2 nodup2 good2
                  (by
                    intro x hx
                    intro hmem
                    rcases List.mem_cons.mp hmem with rfl | hx'
                    · exact ht hx
                    · exact htemp1 x (List.mem_cons_of_mem _ hx) hx')
              have hsub2 : ∀ x ∈ node :: v1, x ∈ v' := by
                intro x hx
                have h1 : x ∈ r1 ++ [node] := (sync2 x).mp hx
                have h2 : x ∈ r' := by rw [hpre2]; exact List.mem_append_left _ h1
                exact (sync' x).mpr h2
              refine ⟨sync', nodup', good', ?_, ?_, htempv, ?_⟩
              · refine ⟨pre1 ++ node :: pre2, ?_⟩
                rw [hpre2, hpre1]
                simp
              · intro n hn
                rcases List.mem_cons.mp hn with rfl | hn'
                · exact hsub2 n (by simp)
                · exact hrest n hn'
              · intro x hx
                rcases hprov2 x hx with h1 | h1 | h1
                · rcases List.mem_append.mp h1 with h2 | h2
                  · rcases hprov1 x h2 with h3 | h3 | h3
                    · exact Or.inl h3
                    · exact Or.inr (Or.inr ⟨node, deps, hl, h3⟩)
                    · exact Or.inr (Or.inr h3)
                  · simp at h2
                    exact Or.inr (Or.inl (by simp [h2]))
                · exact Or.inr (Or.inl (List.mem_cons_of_mem _ h1))
                · exact Or.inr (Or.inr h1)
          next hl =>
            have hnoder : node ∉ result := fun m => hv ((hsync node).mpr m)
            have sync2 : Sync (node :: visited) (result ++ [node]) := by
              intro x
              constructor
              · intro hx
                rcases List.mem_cons.mp hx with rfl | hx'
                · simp
                · exact List.mem_append_left _ ((hsync x).mp hx')
              · intro hx
                rcases List.mem_append.mp hx with hx' | hx'
                · exact List.mem_cons_of_mem _ ((hsync x).mpr hx')
                · simp at hx'
                  simp [hx']
            have nodup2 : (result ++ [node]).Nodup := by
              rw [List.nodup_append]
              exact ⟨hnodup, by simp, by
                intro a ha hb
                simp at hb
                rw [hb] at ha
                exact hnoder ha⟩
            have good2 : Good g (result ++ [node]) := by
              intro s ds d hs hld hd
              rcases List.mem_append.mp hs with hs' | hs'
              · exact before_append (hgood s ds d hs' hld hd)
              · simp at hs'
                subst hs'
                rw [hl] at hld
                cases hld
            obtain ⟨sync', nodup', good', ⟨pre2, hpre2⟩, hrest, htempv, hprov2⟩ :=
              ih rest (node :: visited) temp (result ++ [node]) h sync2 nodup2 good2
                (by
                  intro x hx
                  intro hmem
                  rcases List.mem_cons.mp hmem with rfl | hx'
                  · exact ht hx
                  · exact hdisj x hx hx')
            have hnodev : node ∈ v' := by
              have h1 : node ∈ result ++ [node] := by simp
              have h2 : node ∈ r' := by rw [hpre2]; exact List.mem_append_left _ h1
              exact (sync' node).mpr h2
            refine ⟨sync', nodup', good', ?_, ?_, htempv, ?_⟩
            · refine ⟨node :: pre2, ?_⟩
              rw [hpre2]
              simp
            · intro n hn
              rcases List.mem_cons.mp hn with rfl | hn'
              · exact hnodev
              · exact hrest n hn'
            · intro x hx
              rcases hprov2 x hx with h1 | h1 | h1
              · rcases List.mem_append.mp h1 with h2 | h2
                · exact Or.inl h2
                · simp at h2
                  exact Or.inr (Or.inl (by simp [h2]))
              · exact Or.inr (Or.inl (List.mem_cons_of_mem _ h1))
              · exact Or.inr (Or.inr h1)

lemma reach_mem_keys {g : Graph} {a b} (h : Reach g a b) : a ∈ keysOf g := by
  cases h with
  | single e => exact edge_mem_keys e
  | head e _ => exact edge_mem_keys e

lemma reach_before {g : Graph} {ord : List Str} (hgood : Good g ord) {a b}
    (h : Reach g a b) (ha : a ∈ ord) : before ord b a ∧ b ∈ ord := by
  induction h with
  | single e =>
    obtain ⟨ds, hl, hd⟩ := e
    have h1 := hgood _ _ _ ha hl hd
    exact ⟨h1, before_mem_left h1⟩
  | head e _ ih =>
    obtain ⟨ds, hl, hd⟩ := e
    have h1 := hgood _ _ _ ha hl hd
    have h2 := ih (before_mem_left h1)
    exact ⟨before_trans h2.1 h1, h2.2⟩

lemma fuelBound_enough (g : Graph) :
    (keysOf g).length + 1 + pot g [] [] ≤ fuelBound g := by
  rw [pot_all, fuelBound]

/-- On every graph, `resolveGraph` either succeeds or reports the circular
dependency error; the fuel-exhaustion branch is unreachable. -/
lemma resolveGraph_total (g : Graph) :
    (∃ ord, resolveGraph g = .ok ord) ∨
      resolveGraph g = .error (.ValidationError (lit "Circular dependency detected")) := by
  have hs := visitAll_isSome (g := g) (fuelBound g) (keysOf g) [] [] [] (fuelBound_enough g)
  cases hres : visitAll g (fuelBound g) (keysOf g) [] [] [] with
  | none => rw [hres] at hs; simp at hs
  | some res =>
    cases res with
    | ok pr => exact Or.inl ⟨pr.2, by simp [resolveGraph, hres]⟩
    | error e =>
      have hmsg := visitAll_error_msg (g := g) (fuelBound g) (keysOf g) [] [] [] hres
      right
      simp [resolveGraph, hres, hmsg]

/-- On an acyclic graph, `resolveGraph` succeeds with a duplicate-free order
containing every key, containing only keys and mentioned dependencies, and
placing every dependency before its dependent. -/
lemma resolveGraph_ok_of_acyclic {g : Graph} (hacyc : Acyclic g) :
    ∃ ord, resolveGraph g = .ok ord ∧ ord.Nodup ∧
      (∀ k ∈ keysOf g, k ∈ ord) ∧
      (∀ x ∈ ord, x ∈ keysOf g ∨ FromDeps g x) ∧
      (∀ s ds d, lookupDeps g s = some ds → d ∈ ds → before ord d s) := by
  have hs := visitAll_isSome (g := g) (fuelBound g) (keysOf g) [] [] [] (fuelBound_enough g)
  cases hres : visitAll g (fuelBound g) (keysOf g) [] [] [] with
  | none => rw [hres] at hs; simp at hs
  | some res =>
    cases res with
    | error e =>
      exact absurd hres
        (visitAll_no_error hacyc (fuelBound g) (keysOf g) [] [] [] e (by simp))
    | ok pr =>
      obtain ⟨v', r'⟩ := pr
      obtain ⟨sync', nodup', good', ⟨pre, hpre⟩, hkeys, _, hprov⟩ :=
        visitAll_invariant (g := g) (fuelBound g) (keysOf g) [] [] [] hres
          (fun x => by simp) (by simp) (by intro s ds d hs'; simp at hs')
          (by simp)
      refine ⟨r', by simp [resolveGraph, hres], nodup', ?_, ?_, ?_⟩
      · intro k hk
        exact (sync' k).mp (hkeys k hk)
      · intro x hx
        rcases hprov x hx with h1 | h1 | h1
        · simp at h1
        · exact Or.inl h1
        · exact Or.inr h1
      · intro s ds d hld hd
        have hs' : s ∈ r' := (sync' s).mp (hkeys s (lookupDeps_mem_keys hld))
        exact good' s ds d hs' hld hd

/-- `resolveGraph` reports the circular-dependency error exactly when the
dependency graph has a cycle. -/
lemma resolveGraph_error_iff_cycle (g : Graph) :
    resolveGraph g = .error (.ValidationError (lit "Circular dependency detected")) ↔
      ∃ n, Reach g n n := by
  constructor
  · intro herr
    by_contra hnone
    have hacyc : Acyclic g := fun n hn => hnone ⟨n, hn⟩
    obtain ⟨ord, hok, _⟩ := resolveGraph_ok_of_acyclic hacyc
    rw [hok] at herr
    cases herr
  · rintro ⟨n, hn⟩
    rcases resolveGraph_total g with ⟨ord, hok⟩ | herr
    · exfalso
      have hs := visitAll_isSome (g := g) (fuelBound g) (keysOf g) [] [] [] (fuelBound_enough g)
      cases hres : visitAll g (fuelBound g) (keysOf g) [] [] [] with
      | none => rw [hres] at hs; simp at hs
      | some res =>
        cases res with
        | error e => rw [resolveGraph, hres] at hok; cases hok
        | ok pr =>
          obtain ⟨v', r'⟩ := pr
          obtain ⟨sync', _, good', _, hkeys, _, _⟩ :=
            visitAll_invariant (g := g) (fuelBound g) (keysOf g) [] [] [] hres
              (fun x => by simp) (by simp) (by intro s ds d hs'; simp at hs')
              (by simp)
          have hmem : n ∈ r' := (sync' n).mp (hkeys n (reach_mem_keys hn))
          exact before_irrefl (reach_before good' hn hmem).1
    · exact herr

/-! ### Lemmas about the substitution passes -/

lemma takeWhile_all {p : Char → Bool} {l : Str} (h : ∀ a ∈ l, p a = true) :
    l.takeWhile p = l := by
  induction l with
  | nil => rfl
  | cons c t ih =>
    rw [List.takeWhile_cons, h c (by simp)]
    simp only [if_pos]
    rw [ih (fun a ha => h a (by simp [ha]))]

lemma dropWhile_all {p : Char → Bool} {l : Str} (h : ∀ a ∈ l, p a = true) :
    l.dropWhile p = [] := by
  induction l with
  | nil => rfl
  | cons c t ih =>
    rw [List.dropWhile_cons, h c (by simp)]
    simp only [if_pos]
    exact ih (fun a ha => h a (by simp [ha]))

lemma takeWhile_append_stop {p : Char → Bool} {n : Str} {c : Char} {t : Str}
    (h : ∀ a ∈ n, p a = true) (hc : p c = false) :
    (n ++ c :: t).takeWhile p = n := by
  induction n with
  | nil => simp [List.takeWhile_cons, hc]
  | cons a n ih =>
    rw [List.cons_append, List.takeWhile_cons, h a (by simp)]
    simp only [if_pos]
    rw [ih (fun x hx => h x (by simp [hx]))]

lemma dropWhile_append_stop {p : Char → Bool} {n : Str} {c : Char} {t : Str}
    (h : ∀ a ∈ n, p a = true) (hc : p c = false) :
    (n ++ c :: t).dropWhile p = c :: t := by
  induction n with
  | nil => simp [List.dropWhile_cons, hc]
  | cons a n ih =>
    rw [List.cons_append, List.dropWhile_cons, h a (by simp)]
    simp only [if_pos]
    exact ih (fun x hx => h x (by simp [hx]))

lemma passDefault_nil (env : Str → Option Str) (fuel : Nat) :
    passDefault env fuel [] = [] := by
  cases fuel <;> rfl

lemma passCurly_nil (env : Str → Option Str) (fuel : Nat) :
    passCurly env fuel [] = [] := by
  cases fuel <;> rfl

lemma passBare_nil (env : Str → Option Str) (fuel : Nat) :
    passBare env fuel [] = [] := by
  cases fuel <;> rfl

lemma passDefault_no_dollar {env : Str → Option Str} :
    ∀ (fuel : Nat) {s : Str}, '$' ∉ s → passDefault env fuel s = s := by
  intro fuel
  induction fuel with
  | zero => intro s _; rfl
  | succ fuel ih =>
    intro s h
    cases s with
    | nil => rfl
    | cons c rest =>
      have hc : c ≠ '$' := fun e => h (by simp [e])
      rw [passDefault, if_neg hc, ih (fun m => h (by simp [m]))]

lemma passCurly_no_dollar {env : Str → Option Str} :
    ∀ (fuel : Nat) {s : Str}, '$' ∉ s → passCurly env fuel s = s := by
  intro fuel
  induction fuel with
  | zero => intro s _; rfl
  | succ fuel ih =>
    intro s h
    cases s with
    | nil => rfl
    | cons c rest =>
      have hc : c ≠ '$' := fun e => h (by simp [e])
      rw [passCurly, if_neg hc, ih (fun m => h (by simp [m]))]

lemma passBare_no_dollar {env : Str → Option Str} :
    ∀ (fuel : Nat) {s : Str}, '$' ∉ s → passBare env fuel s = s := by
  intro fuel
  induction fuel with
  | zero => intro s _; rfl
  | succ fuel ih =>
    intro s h
    cases s with
    | nil => rfl
    | cons c rest =>
      have hc : c ≠ '$' := fun e => h (by simp [e])
      rw [passBare, if_neg hc, ih (fun m => h (by simp [m]))]

/-- The name/default character classes of the first pass. -/
lemma matchDefaultAt_eval {n d t : Str}
    (hn : n ≠ []) (hnc : ∀ c ∈ n, c ≠ '{' ∧ c ≠ '}' ∧ c ≠ ':')
    (hd : ∀ c ∈ d, c ≠ '{' ∧ c ≠ '}') :
    matchDefaultAt ('{' :: (n ++ ':' :: '-' :: (d ++ '}' :: t))) =
      some (n, d, t) := by
  rw [matchDefaultAt]
  simp only [if_pos rfl]
  have h1 : (n ++ ':' :: '-' :: (d ++ '}' :: t)).takeWhile
      (fun c => !(c == '{' || c == '}' || c == ':')) = n := by
    apply takeWhile_append_stop
    · intro a ha
      obtain ⟨h2, h3, h4⟩ := hnc a ha
      simp [h2, h3, h4]
    · simp
  have h2 : (n ++ ':' :: '-' :: (d ++ '}' :: t)).dropWhile
      (fun c => !(c == '{' || c == '}' || c == ':')) = ':' :: '-' :: (d ++ '}' :: t) := by
    apply dropWhile_append_stop
    · intro a ha
      obtain ⟨h2, h3, h4⟩ := hnc a ha
      simp [h2, h3, h4]
    · simp
  rw [h1, h2, if_neg hn]
  have h3 : (d ++ '}' :: t).takeWhile (fun c => !(c == '{' || c == '}')) = d := by
    apply takeWhile_append_stop
    · intro a ha
      obtain ⟨h4, h5⟩ := hd a ha
      simp [h4, h5]
    · simp
  have h4 : (d ++ '}' :: t).dropWhile (fun c => !(c == '{' || c == '}')) = '}' :: t := by
    apply dropWhile_append_stop
    · intro a ha
      obtain ⟨h4, h5⟩ := hd a ha
      simp [h4, h5]
    · simp
  simp only [h3, h4]
  simp

/-- The first pass does not fire on a `${name}` occurrence without `:-`. -/
lemma matchDefaultAt_curly_none {n t : Str}
    (hnc : ∀ c ∈ n, c ≠ '{' ∧ c ≠ '}' ∧ c ≠ ':') :
    matchDefaultAt ('{' :: (n ++ '}' :: t)) = none := by
  rw [matchDefaultAt]
  simp only [if_pos rfl]
  have h2 : (n ++ '}' :: t).dropWhile
      (fun c => !(c == '{' || c == '}' || c == ':')) = '}' :: t := by
    apply dropWhile_append_stop
    · intro a ha
      obtain ⟨h2, h3, h4⟩ := hnc a ha
      simp [h2, h3, h4]
    · simp
  rw [h2]
  split <;> simp

/-- The curly-pass match on a `${name}` occurrence. -/
lemma matchCurlyAt_eval {n t : Str} (hn : n ≠ [])
    (hnc : ∀ c ∈ n, c ≠ '{' ∧ c ≠ '}') :
    matchCurlyAt ('{' :: (n ++ '}' :: t)) = some (n, t) := by
  rw [matchCurlyAt]
  simp only [if_pos rfl]
  have h1 : (n ++ '}' :: t).takeWhile (fun c => !(c == '{' || c == '}')) = n := by
    apply takeWhile_append_stop
    · intro a ha
      obtain ⟨h2, h3⟩ := hnc a ha
      simp [h2, h3]
    · simp
  have h2 : (n ++ '}' :: t).dropWhile (fun c => !(c == '{' || c == '}')) = '}' :: t := by
    apply dropWhile_append_stop
    · intro a ha
      obtain ⟨h2, h3⟩ := hnc a ha
      simp [h2, h3]
    · simp
  rw [h1, h2, if_neg hn]
  simp

/-- The bare-pass match on a `$name` occurrence ending the text. -/
lemma matchBareAt_eval {c : Char} {rest : Str} (hc : isIdentStart c = true)
    (hrest : ∀ a ∈ rest, isIdentChar a = true) :
    matchBareAt (c :: rest) = some (c :: rest, []) := by
  rw [matchBareAt, if_pos hc, takeWhile_all hrest, dropWhile_all hrest]

lemma identChar_ne_dollar {a : Char} (h : isIdentChar a = true) : a ≠ '$' := by
  intro e
  rw [e] at h
  simp [isIdentChar, Char.isAlphanum, Char.isAlpha, Char.isDigit, Char.isUpper,
    Char.isLower] at h

/-- Substituting a single `${n:-d}` occurrence: the value when present and
non-empty, the default otherwise.  The character-class hypotheses say that `n`
is a brace- and colon-free name, and that the default and the looked-up value
contain no `$` (so the later passes leave the replacement alone). -/
lemma substitute_default_eval (env : Str → Option Str) (n d : Str)
    (hn : n ≠ []) (hnc : ∀ c ∈ n, c ≠ '{' ∧ c ≠ '}' ∧ c ≠ ':')
    (hd : ∀ c ∈ d, c ≠ '{' ∧ c ≠ '}') (hdd : '$' ∉ d)
    (hv : ∀ v, env n = some v → '$' ∉ v) :
    substitute_env_vars ('$' :: '{' :: (n ++ ':' :: '-' :: (d ++ ['}']))) env =
      (match env n with
       | some v => if v = [] then d else v
       | none => d) := by
  have hmatch := matchDefaultAt_eval (t := []) hn hnc hd
  unfold substitute_env_vars
  rw [show ('$' :: '{' :: (n ++ ':' :: '-' :: (d ++ ['}']))).length =
      ('{' :: (n ++ ':' :: '-' :: (d ++ ['}']))).length + 1 by simp]
  rw [passDefault, if_pos rfl, hmatch]
  dsimp only
  rw [passDefault_nil, List.append_nil]
  cases henv : env n with
  | none =>
    dsimp only
    rw [passCurly_no_dollar _ hdd, passBare_no_dollar _ hdd]
  | some v =>
    dsimp only
    by_cases hv0 : v = []
    · rw [if_pos hv0, passCurly_no_dollar _ hdd, passBare_no_dollar _ hdd]
    · have hvd := hv v henv
      rw [if_neg hv0, passCurly_no_dollar _ hvd, passBare_no_dollar _ hvd]

/-- Substituting a single `${n}` occurrence: the value or the empty string. -/
lemma substitute_curly_eval (env : Str → Option Str) (n : Str)
    (hn : n ≠ []) (hnc : ∀ c ∈ n, c ≠ '{' ∧ c ≠ '}' ∧ c ≠ ':' ∧ c ≠ '$')
    (hv : ∀ v, env n = some v → '$' ∉ v) :
    substitute_env_vars ('$' :: '{' :: (n ++ ['}'])) env = (env n).getD [] := by
  have hnod : '$' ∉ ('{' :: (n ++ ['}'])) := by
    intro hm
    rcases List.mem_cons.mp hm with h | h
    · exact absurd h.symm (by decide)
    · rcases List.mem_append.mp h with h' | h'
      · exact (hnc _ h').2.2.2 rfl
      · simp at h'
  unfold substitute_env_vars
  rw [show ('$' :: '{' :: (n ++ ['}'])).length = ('{' :: (n ++ ['}'])).length + 1 by simp]
  rw [passDefault, if_pos rfl,
    matchDefaultAt_curly_none (t := []) (fun c hc => ⟨(hnc c hc).1, (hnc c hc).2.1, (hnc c hc).2.2.1⟩)]
  rw [passDefault_no_dollar _ hnod]
  dsimp only
  rw [show ('$' :: '{' :: (n ++ ['}'])).length = ('{' :: (n ++ ['}'])).length + 1 by simp]
  rw [passCurly, if_pos rfl,
    matchCurlyAt_eval (t := []) hn (fun c hc => ⟨(hnc c hc).1, (hnc c hc).2.1⟩)]
  dsimp only
  rw [passCurly_nil, List.append_nil]
  cases henv : env n with
  | none => simp [passBare_nil]
  | some v =>
    have hvd := hv v henv
    simp only [Option.getD_some]
    rw [passBare_no_dollar _ hvd]

/-- Substituting a single bare `$name` occurrence. -/
lemma substitute_bare_eval (env : Str → Option Str) (c : Char) (rest : Str)
    (hc : isIdentStart c = true) (hrest : ∀ a ∈ c :: rest, isIdentChar a = true) :
    substitute_env_vars ('$' :: c :: rest) env = (env (c :: rest)).getD [] := by
  have hnod : '$' ∉ (c :: rest) := fun hm => identChar_ne_dollar (hrest _ hm) rfl
  have hcb : c ≠ '{' := by
    intro e
    rw [e] at hc
    simp [isIdentStart, Char.isAlpha, Char.isUpper, Char.isLower] at hc
  unfold substitute_env_vars
  rw [show ('$' :: c :: rest).length = (c :: rest).length + 1 by simp]
  rw [passDefault, if_pos rfl]
  rw [show matchDefaultAt (c :: rest) = none by rw [matchDefaultAt, if_neg hcb]]
  rw [passDefault_no_dollar _ hnod]
  dsimp only
  rw [show ('$' :: c :: rest).length = (c :: rest).length + 1 by simp]
  rw [passCurly, if_pos rfl]
  rw [show matchCurlyAt (c :: rest) = none by rw [matchCurlyAt, if_neg hcb]]
  rw [passCurly_no_dollar _ hnod]
  dsimp only
  rw [show ('$' :: c :: rest).length = (c :: rest).length + 1 by simp]
  rw [passBare, if_pos rfl,
    matchBareAt_eval hc (fun a ha => hrest a (by simp [ha]))]
  dsimp only
  rw [passBare_nil, List.append_nil]

/-! ### Supporting lemmas for the parser claims -/

lemma splitOnceChar_eq_none {sep : Char} : ∀ {s : Str}, sep ∉ s → splitOnceChar sep s = none := by
  intro s
  induction s with
  | nil => intro _; rfl
  | cons c rest ih =>
    intro h
    rw [splitOnceChar, if_neg (fun e => h (by simp at e; subst e; simp)),
      ih (fun m => h (by simp [m]))]
    rfl

/-- If some token of an `EXPOSE` argument list has an unparsable port, the
loop stops at such a token with the "Invalid port number" error naming its
port text. -/
lemma exposeLoop_error :
    ∀ (toks : List Str) (cfg : DockerfileConfig),
      (∃ tok ∈ toks, parseU16 (trimStr ((splitOnChar '/' tok).headD [])) = none) →
      ∃ tok ∈ toks, parseU16 (trimStr ((splitOnChar '/' tok).headD [])) = none ∧
        exposeLoop cfg toks =
          .error (.DockerfileError (lit "Invalid port number: " ++ (splitOnChar '/' tok).headD [])) := by
  intro toks
  induction toks with
  | nil => rintro cfg ⟨tok, htok, _⟩; cases htok
  | cons t rest ih =>
    rintro cfg ⟨tok, htok, hbad⟩
    by_cases hbadt : parseU16 (trimStr ((splitOnChar '/' t).headD [])) = none
    · refine ⟨t, by simp, hbadt, ?_⟩
      simp only [exposeLoop]
      rw [hbadt]
    · have htok' : tok ∈ rest := by
        rcases List.mem_cons.mp htok with rfl | h
        · exact absurd hbad hbadt
        · exact h
      obtain ⟨port, hport⟩ := Option.ne_none_iff_exists'.mp hbadt
      obtain ⟨tok', h1, h2, h3⟩ := ih _ ⟨tok, htok', hbad⟩
      refine ⟨tok', by simp [h1], h2, ?_⟩
      simp only [exposeLoop]
      rw [hport]
      exact h3

/-- Identity of the `i64` wrap on in-range values. -/
lemma wrap64_eq_self {x : Int} (h1 : -(2 ^ 63) ≤ x) (h2 : x < 2 ^ 63) :
    wrap64 x = x := by
  rw [wrap64]
  rw [Int.emod_eq_of_lt (by omega) (by omega)]
  omega

lemma keysOf_buildGraph (services : List (Str × Service)) :
    keysOf (buildGraph services) = services.map Prod.fst := by
  simp [keysOf, buildGraph]

lemma lookup_buildGraph {services : List (Str × Service)}
    (hnd : (services.map Prod.fst).Nodup) {sname : Str} {s : Service}
    (hmem : (sname, s) ∈ services) :
    lookupDeps (buildGraph services) sname = some (s.depends_on.getD []) := by
  induction services with
  | nil => cases hmem
  | cons p rest ih =>
    rw [buildGraph, List.map_cons, lookupDeps]
    by_cases hk : p.1 = sname
    · rw [if_pos hk]
      rcases List.mem_cons.mp hmem with h | h
      · rw [← h]
      · exfalso
        rw [List.map_cons, List.nodup_cons] at hnd
        exact hnd.1 (hk ▸ (List.mem_map_of_mem Prod.fst h : sname ∈ rest.map Prod.fst))
    · rw [if_neg hk]
      have h2 : (sname, s) ∈ rest := by
        rcases List.mem_cons.mp hmem with h | h
        · exact absurd (congrArg Prod.fst h).symm hk
        · exact h
      rw [List.map_cons, List.nodup_cons] at hnd
      exact ih hnd.2 h2

/-! ### Association-map lemmas for the volume-collection claim -/

lemma alookup_append {α : Type} {m1 m2 : List (Str × α)} {k : Str} :
    alookup (m1 ++ m2) k =
      match alookup m1 k with
      | some v => some v
      | none => alookup m2 k := by
  induction m1 with
  | nil => simp [alookup]
  | cons p m ih =>
    rw [List.cons_append, alookup, alookup]
    by_cases hp : p.1 = k
    · rw [if_pos hp, if_pos hp]
    · rw [if_neg hp, if_neg hp, ih]

lemma alookup_replace_self {α : Type} {m : List (Str × α)} {k : Str} {v : α}
    (h : (alookup m k).isSome) :
    alookup (m.map (fun p => if p.1 = k then (k, v) else p)) k = some v := by
  induction m with
  | nil => simp [alookup] at h
  | cons p m ih =>
    rw [List.map_cons]
    by_cases hp : p.1 = k
    · rw [if_pos hp, alookup, if_pos rfl]
    · rw [if_neg hp, alookup, if_neg hp]
      rw [alookup, if_neg hp] at h
      exact ih h

lemma alookup_replace_ne {α : Type} {m : List (Str × α)} {k k' : Str} {v : α}
    (h : k' ≠ k) :
    alookup (m.map (fun p => if p.1 = k' then (k', v) else p)) k = alookup m k := by
  induction m with
  | nil => rfl
  | cons p m ih =>
    rw [List.map_cons]
    by_cases hp : p.1 = k'
    · rw [if_pos hp, alookup, alookup, if_neg h, if_neg (hp ▸ h), ih]
    · rw [if_neg hp, alookup, alookup, ih]

lemma alookup_mapInsert_self {α : Type} (m : List (Str × α)) (k : Str) (v : α) :
    alookup (mapInsert m k v) k = some v := by
  rw [mapInsert]
  by_cases hs : (alookup m k).isSome
  · rw [if_pos hs]
    exact alookup_replace_self hs
  · rw [if_neg hs, alookup_append]
    rw [Option.not_isSome_iff_eq_none] at hs
    rw [hs]
    simp [alookup]

lemma alookup_mapInsert_ne {α : Type} {m : List (Str × α)} {k k' : Str} {v : α}
    (h : k' ≠ k) : alookup (mapInsert m k' v) k = alookup m k := by
  rw [mapInsert]
  by_cases hs : (alookup m k').isSome
  · rw [if_pos hs]
    exact alookup_replace_ne h
  · rw [if_neg hs, alookup_append]
    cases hm : alookup m k with
    | some v0 => rfl
    | none => simp [alookup, h]

lemma mapInsert_mem {α : Type} {m : List (Str × α)} {k : Str} {v : α} {p : Str × α}
    (h : p ∈ mapInsert m k v) : p ∈ m ∨ p.1 = k := by
  rw [mapInsert] at h
  by_cases hs : (alookup m k).isSome
  · rw [if_pos hs] at h
    obtain ⟨q, hq, he⟩ := List.mem_map.mp h
    by_cases hk : q.1 = k
    · rw [if_pos hk] at he
      right
      rw [← he]
    · rw [if_neg hk] at he
      left
      rw [← he]
      exact hq
  · rw [if_neg hs] at h
    rcases List.mem_append.mp h with h' | h'
    · exact Or.inl h'
    · right
      simp at h'
      rw [h']

lemma extendMap_preserve {α : Type} {u : List (Str × α)} :
    ∀ {m : List (Str × α)} {k : Str} {v : α}, alookup m k = some v →
      (∀ p ∈ u, p.1 ≠ k) → alookup (extendMap m u) k = some v := by
  induction u with
  | nil => intro m k v h _; exact h
  | cons p u ih =>
    intro m k v h hu
    rw [extendMap, List.foldl_cons]
    exact ih (m := mapInsert m p.1 p.2)
      (by rw [alookup_mapInsert_ne (hu p (by simp))]; exact h)
      (fun q hq => hu q (by simp [hq]))

lemma extendMap_isSome_left {α : Type} {u : List (Str × α)} :
    ∀ {m : List (Str × α)} {k : Str}, (alookup m k).isSome →
      (alookup (extendMap m u) k).isSome := by
  induction u with
  | nil => intro m k h; exact h
  | cons p u ih =>
    intro m k h
    rw [extendMap, List.foldl_cons]
    apply ih (m := mapInsert m p.1 p.2)
    by_cases hk : p.1 = k
    · rw [hk, alookup_mapInsert_self]
      rfl
    · rw [alookup_mapInsert_ne hk]
      exact h

lemma extendMap_isSome_right {α : Type} {u : List (Str × α)} :
    ∀ {m : List (Str × α)} {k : Str}, (alookup u k).isSome →
      (alookup (extendMap m u) k).isSome := by
  induction u with
  | nil => intro m k h; simp [alookup] at h
  | cons p u ih =>
    intro m k h
    rw [extendMap, List.foldl_cons]
    by_cases hk : p.1 = k
    · apply extendMap_isSome_left (u := u)
      rw [hk, alookup_mapInsert_self]
      rfl
    · apply ih
      rw [alookup, if_neg hk] at h
      exact h

lemma collectUsedVols_mem {volumes : List (Str × VolumeType)} :
    ∀ (vs : List VolumeType) (used : List (Str × VolumeType)) (p : Str × VolumeType),
      p ∈ collectUsedVols volumes used vs →
      p ∈ used ∨ alookup volumes p.1 = none := by
  intro vs
  induction vs with
  | nil => intro used p h; exact Or.inl h
  | cons v vs ih =>
    intro used p h
    cases v with
    | Named name =>
      have h' : p ∈ (if (alookup volumes (volumeKey name)).isSome
          then collectUsedVols volumes used vs
          else collectUsedVols volumes
            (mapInsert used (volumeKey name) (.Named name)) vs) := h
      by_cases hs : (alookup volumes (volumeKey name)).isSome
      · rw [if_pos hs] at h'
        exact ih used p h'
      · rw [if_neg hs] at h'
        rcases ih _ p h' with h'' | h''
        · rcases mapInsert_mem h'' with h3 | h3
          · exact Or.inl h3
          · right
            rw [h3]
            exact Option.not_isSome_iff_eq_none.mp hs
        · exact Or.inr h''
    | Bind source target ro => exact ih used p h
    | Config name driver opts => exact ih used p h

lemma collectUsedSvcs_mem {volumes : List (Str × VolumeType)} :
    ∀ (svcs : List (Str × Service)) (used : List (Str × VolumeType)) (p : Str × VolumeType),
      p ∈ collectUsedSvcs volumes used svcs →
      p ∈ used ∨ alookup volumes p.1 = none := by
  intro svcs
  induction svcs with
  | nil => intro used p h; exact Or.inl h
  | cons q svcs ih =>
    intro used p h
    rw [collectUsedSvcs] at h
    rcases ih _ p h with h' | h'
    · exact collectUsedVols_mem _ used p h'
    · exact Or.inr h'

lemma collectUsedVols_isSome_mono {volumes : List (Str × VolumeType)} :
    ∀ (vs : List VolumeType) (used : List (Str × VolumeType)) (k : Str),
      (alookup used k).isSome →
      (alookup (collectUsedVols volumes used vs) k).isSome := by
  intro vs
  induction vs with
  | nil => intro used k h; exact h
  | cons v vs ih =>
    intro used k h
    cases v with
    | Named name =>
      show (alookup (if (alookup volumes (volumeKey name)).isSome
          then collectUsedVols volumes used vs
          else collectUsedVols volumes
            (mapInsert used (volumeKey name) (.Named name)) vs) k).isSome = true
      by_cases hs : (alookup volumes (volumeKey name)).isSome
      · rw [if_pos hs]
        exact ih used k h
      · rw [if_neg hs]
        apply ih
        by_cases hk : volumeKey name = k
        · rw [hk, alookup_mapInsert_self]
          rfl
        · rw [alookup_mapInsert_ne hk]
          exact h
    | Bind source target ro => exact ih used k h
    | Config name driver opts => exact ih used k h

lemma collectUsedVols_isSome_of_ref {volumes : List (Str × VolumeType)} :
    ∀ (vs : List VolumeType) (used : List (Str × VolumeType)) (name : Str),
      VolumeType.Named name ∈ vs →
      alookup volumes (volumeKey name) = none →
      (alookup (collectUsedVols volumes used vs) (volumeKey name)).isSome := by
  intro vs
  induction vs with
  | nil => intro used name h _; cases h
  | cons v vs ih =>
    intro used name h habs
    by_cases hv : v = VolumeType.Named name
    · subst hv
      show (alookup (if (alookup volumes (volumeKey name)).isSome
          then collectUsedVols volumes used vs
          else collectUsedVols volumes
            (mapInsert used (volumeKey name) (.Named name)) vs)
          (volumeKey name)).isSome = true
      rw [if_neg (by rw [habs]; simp)]
      apply collectUsedVols_isSome_mono
      rw [alookup_mapInsert_self]
      rfl
    · have h' : VolumeType.Named name ∈ vs := by
        rcases List.mem_cons.mp h with h'' | h''
        · exact absurd h''.symm hv
        · exact h''
      cases v with
      | Named nm =>
        show (alookup (if (alookup volumes (volumeKey nm)).isSome
            then collectUsedVols volumes used vs
            else collectUsedVols volumes
              (mapInsert used (volumeKey nm) (.Named nm)) vs)
            (volumeKey name)).isSome = true
        by_cases hs : (alookup volumes (volumeKey nm)).isSome
        · rw [if_pos hs]
          exact ih used name h' habs
        · rw [if_neg hs]
          exact ih _ name h' habs
      | Bind source target ro => exact ih used name h' habs
      | Config nm driver opts => exact ih used name h' habs

lemma collectUsedSvcs_isSome_mono {volumes : List (Str × VolumeType)} :
    ∀ (svcs : List (Str × Service)) (used : List (Str × VolumeType)) (k : Str),
      (alookup used k).isSome →
      (alookup (collectUsedSvcs volumes used svcs) k).isSome := by
  intro svcs
  induction svcs with
  | nil => intro used k h; exact h
  | cons q svcs ih =>
    intro used k h
    rw [collectUsedSvcs]
    exact ih _ k (collectUsedVols_isSome_mono _ used k h)

lemma collectUsedSvcs_isSome_of_ref {volumes : List (Str × VolumeType)} :
    ∀ (svcs : List (Str × Service)) (used : List (Str × VolumeType))
      (sname : Str) (s : Service) (vols : List VolumeType) (name : Str),
      (sname, s) ∈ svcs → s.volumes = some vols → VolumeType.Named name ∈ vols →
      alookup volumes (volumeKey name) = none →
      (alookup (collectUsedSvcs volumes used svcs) (volumeKey name)).isSome := by
  intro svcs
  induction svcs with
  | nil => intro used sname s vols name h _ _ _; cases h
  | cons q svcs ih =>
    obtain ⟨qn, qs⟩ := q
    intro used sname s vols name hmem hvols href habs
    rw [collectUsedSvcs]
    rcases List.mem_cons.mp hmem with h | h
    · apply collectUsedSvcs_isSome_mono
      have hqs : qs.volumes.getD [] = vols := by
        rw [show qs = s from congrArg Prod.snd h.symm, hvols, Option.getD_some]
      rw [hqs]
      exact collectUsedVols_isSome_of_ref vols used name href habs
    · exact ih _ sname s vols name h hvols href habs

/-- One replacement step of `resolve_env_value` is independent of the ambient
environment when the variable is present in the explicit map. -/
lemma resolveStep_sys_independent {env sys1 : Str → Option Str}
    (sys2 : Str → Option Str) {acc : Str}
    {cap : Str × Str} (h : (env (capName cap.2)).isSome) :
    resolveStep env sys1 acc cap = resolveStep env sys2 acc cap := by
  obtain ⟨v, hv⟩ := Option.isSome_iff_exists.mp h
  rw [resolveStep, resolveStep]
  rw [hv]

lemma foldl_resolveStep_sys {env sys1 sys2 : Str → Option Str} :
    ∀ (caps : List (Str × Str)) (acc : Str),
      (∀ cap ∈ caps, (env (capName cap.2)).isSome) →
      caps.foldl (resolveStep env sys1) acc = caps.foldl (resolveStep env sys2) acc := by
  intro caps
  induction caps with
  | nil => intro acc _; rfl
  | cons cap caps ih =>
    intro acc h
    rw [List.foldl_cons, List.foldl_cons,
      resolveStep_sys_independent sys2 (h cap (by simp))]
    exact ih _ (fun c hc => h c (by simp [hc]))

/-! ### The claims -/

/-- C10: a logical line that is a single token (it contains no space) fails
with the generic "Invalid command syntax" error before any keyword dispatch —
also for known keywords alone, and for an unknown keyword alone (which
therefore does not produce the "Unknown command" error). -/
theorem C10_single_token_line :
    (∀ (fuel : Nat) (cfg : DockerfileConfig) (line : Str), ' ' ∉ line →
      parse_command (fuel + 1) cfg line =
        some (.error (.DockerfileError (lit "Invalid command syntax")))) ∧
    parse (lit "RUN") = .error (.DockerfileError (lit "Invalid command syntax")) ∧
    parse (lit "FROM") = .error (.DockerfileError (lit "Invalid command syntax")) ∧
    parse (lit "FOOBAR") = .error (.DockerfileError (lit "Invalid command syntax")) := by
  refine ⟨?_, by decide, by decide, by decide⟩
  intro fuel cfg line h
  simp only [parse_command, splitOnceChar_eq_none h]

/-- C10 witness: the general part applied to the single-token line `RUN`. -/
theorem C10_single_token_line_witness :
    parse_command 4 ⟨[], []⟩ (lit "RUN") =
      some (.error (.DockerfileError (lit "Invalid command syntax"))) :=
  C10_single_token_line.1 3 ⟨[], []⟩ (lit "RUN") (by decide)

/-- C6: `EXPOSE` emits one `Expose` command per whitespace-separated
`port[/proto]` token (the spec's concrete scenario), and an unparsable port
makes the whole parse fail with the error "Invalid port number: " followed by
the offending port text — both at the spec's concrete input and for every
argument list containing a bad token. -/
theorem C6_expose :
    parse (lit "FROM ubuntu:22.04\nEXPOSE 80 443/tcp\n") =
      .ok ⟨lit "ubuntu:22.04",
        [.Expose 80 none, .Expose 443 (some (lit "tcp"))]⟩ ∧
    parse (lit "EXPOSE 30333 invalid 9944") =
      .error (.DockerfileError (lit "Invalid port number: invalid")) ∧
    (∀ (fuel : Nat) (cfg : DockerfileConfig) (args : Str),
      (∃ tok ∈ splitWhitespace (trimStr args),
        parseU16 (trimStr ((splitOnChar '/' tok).headD [])) = none) →
      ∃ tok ∈ splitWhitespace (trimStr args),
        parseU16 (trimStr ((splitOnChar '/' tok).headD [])) = none ∧
          parse_command (fuel + 1) cfg (lit "EXPOSE " ++ args) =
            some (.error (.DockerfileError
              (lit "Invalid port number: " ++ (splitOnChar '/' tok).headD [])))) := by
  refine ⟨by decide, by decide, ?_⟩
  intro fuel cfg args hex
  have hred : parse_command (fuel + 1) cfg (lit "EXPOSE " ++ args) =
      some (exposeLoop cfg (splitWhitespace (trimStr args))) := rfl
  obtain ⟨tok, h1, h2, h3⟩ := exposeLoop_error (splitWhitespace (trimStr args)) cfg hex
  exact ⟨tok, h1, h2, by rw [hred, h3]⟩

/-- C6 witness: the general part applied to the argument text
`30333 invalid 9944`. -/
theorem C6_expose_witness :
    ∃ tok ∈ splitWhitespace (trimStr (lit "30333 invalid 9944")),
      parseU16 (trimStr ((splitOnChar '/' tok).headD [])) = none ∧
        parse_command 8 ⟨[], []⟩ (lit "EXPOSE " ++ lit "30333 invalid 9944") =
          some (.error (.DockerfileError
            (lit "Invalid port number: " ++ (splitOnChar '/' tok).headD []))) :=
  C6_expose.2.2 7 ⟨[], []⟩ (lit "30333 invalid 9944")
    ⟨lit "invalid", by decide, by decide⟩

/-- C4: the round-trip property fails on the code.  The document parsed from
`FROM x\nCMD []` renders as `FROM x\nCMD \n` (the empty JSON argument vector
renders as no argument tokens), and re-parsing that text fails with "Invalid
command syntax" instead of returning the original document. -/
theorem C4_roundtrip_failure :
    parse (lit "FROM x\nCMD []") = .ok ⟨lit "x", [.Cmd []]⟩ ∧
    renderConfig ⟨lit "x", [.Cmd []]⟩ = lit "FROM x\nCMD \n" ∧
    parse (renderConfig ⟨lit "x", [.Cmd []]⟩) =
      .error (.DockerfileError (lit "Invalid command syntax")) := by
  refine ⟨by decide, by decide, by decide⟩

/-- C5 counterexample: the default text `$Y` of `${X:-$Y}` appears in the
output of the first pass only as the replacement of `X`, yet the third pass
substitutes it, so the result is `v` and not the claimed `$Y`. -/
theorem C5_counterexample :
    substitute_env_vars (lit "${X:-$Y}")
      (fun n => if n = lit "Y" then some (lit "v") else none) = lit "v" ∧
    lit "v" ≠ lit "$Y" := by decide

/-- C5 (amended): a token produced by a replacement is not re-scanned by the
same pass (the output of the final `$NAME` pass in particular is left alone),
but each later pass re-scans the whole text, so `$`-tokens produced by an
earlier pass's replacement are substituted by the later passes. -/
theorem C5_no_rescan_within_pass_only :
    substitute_env_vars (lit "$X")
      (fun n => if n = lit "X" then some (lit "$Y")
        else if n = lit "Y" then some (lit "v") else none) = lit "$Y" ∧
    substitute_env_vars (lit "${X}")
      (fun n => if n = lit "X" then some (lit "$Y")
        else if n = lit "Y" then some (lit "v") else none) = lit "v" ∧
    substitute_env_vars (lit "${X:-$Y}")
      (fun n => if n = lit "Y" then some (lit "v") else none) = lit "v" := by
  decide

/-- C7: `parse_memory_string` scales an integer magnitude by the binary unit
`K`, `M` or `G` (concretely, `512M` is 536870912 bytes), and rejects
non-numeric magnitudes and unrecognised unit suffixes with
`InvalidResourceLimit`.  The general parts quantify over every magnitude
string and unit character; the product bounds keep the `i64` wrap inert. -/
theorem C7_parse_memory_string :
    parse_memory_string (lit "512M") = some (.ok 536870912) ∧
    parse_memory_string (lit "12.5G") =
      some (.error (.InvalidResourceLimit (lit "Invalid memory value: 12.5G"))) ∧
    parse_memory_string (lit "abc") =
      some (.error (.InvalidResourceLimit (lit "Invalid memory value: abc"))) ∧
    (∀ (num : Str) (u : Char) (b : Int), parseI64 num = some b →
      (Char.toUpper u = 'K' → -(2 ^ 63) ≤ b * 1024 → b * 1024 < 2 ^ 63 →
        parse_memory_string (num ++ [u]) = some (.ok (b * 1024))) ∧
      (Char.toUpper u = 'M' → -(2 ^ 63) ≤ b * 1024 * 1024 → b * 1024 * 1024 < 2 ^ 63 →
        parse_memory_string (num ++ [u]) = some (.ok (b * 1024 * 1024))) ∧
      (Char.toUpper u = 'G' → -(2 ^ 63) ≤ b * 1024 * 1024 * 1024 →
        b * 1024 * 1024 * 1024 < 2 ^ 63 →
        parse_memory_string (num ++ [u]) = some (.ok (b * 1024 * 1024 * 1024)))) ∧
    (∀ (num : Str) (u : Char), parseI64 num = none →
      parse_memory_string (num ++ [u]) =
        some (.error (.InvalidResourceLimit (lit "Invalid memory value: " ++ (num ++ [u]))))) ∧
    (∀ (num : Str) (u : Char) (b : Int), parseI64 num = some b →
      Char.toUpper u ≠ 'K' → Char.toUpper u ≠ 'M' → Char.toUpper u ≠ 'G' →
      parse_memory_string (num ++ [u]) =
        some (.error (.InvalidResourceLimit (lit "Invalid memory unit: " ++ [u])))) := by
  have hsplit : ∀ (num : Str) (u : Char),
      parse_memory_string (num ++ [u]) =
        (match parseI64 num with
         | none => some (.error (.InvalidResourceLimit (lit "Invalid memory value: " ++ (num ++ [u]))))
         | some base =>
           if [Char.toUpper u] = lit "K" then some (.ok (wrap64 (base * 1024)))
           else if [Char.toUpper u] = lit "M" then some (.ok (wrap64 (base * 1024 * 1024)))
           else if [Char.toUpper u] = lit "G" then some (.ok (wrap64 (base * 1024 * 1024 * 1024)))
           else some (.error (.InvalidResourceLimit (lit "Invalid memory unit: " ++ [u])))) := by
    intro num u
    rw [parse_memory_string, if_neg (by simp)]
    have hlen : (num ++ [u]).length - 1 = num.length := by simp
    rw [hlen]
    rw [List.take_left, List.drop_left]
    rfl
  refine ⟨by decide, by decide, by decide, ?_, ?_, ?_⟩
  · intro num u b hb
    refine ⟨?_, ?_, ?_⟩
    · intro hu hlo hhi
      rw [hsplit, hb]
      dsimp only
      rw [if_pos (by rw [hu]; rfl), wrap64_eq_self hlo hhi]
    · intro hu hlo hhi
      have hK : ¬ ([Char.toUpper u] = lit "K") := by rw [hu]; decide
      rw [hsplit, hb]
      dsimp only
      rw [if_neg hK, if_pos (by rw [hu]; rfl), wrap64_eq_self hlo hhi]
    · intro hu hlo hhi
      have hK : ¬ ([Char.toUpper u] = lit "K") := by rw [hu]; decide
      have hM : ¬ ([Char.toUpper u] = lit "M") := by rw [hu]; decide
      rw [hsplit, hb]
      dsimp only
      rw [if_neg hK, if_neg hM, if_pos (by rw [hu]; rfl), wrap64_eq_self hlo hhi]
  · intro num u hb
    rw [hsplit, hb]
  · intro num u b hb hK hM hG
    have hK' : ¬ ([Char.toUpper u] = lit "K") := by
      intro e
      exact hK (by injection e)
    have hM' : ¬ ([Char.toUpper u] = lit "M") := by
      intro e
      exact hM (by injection e)
    have hG' : ¬ ([Char.toUpper u] = lit "G") := by
      intro e
      exact hG (by injection e)
    rw [hsplit, hb]
    dsimp only
    rw [if_neg hK', if_neg hM', if_neg hG']

/-- C7 witness: the general positive and negative parts at `2K`, `2X` and
`zG`. -/
theorem C7_parse_memory_string_witness :
    parse_memory_string (lit "2" ++ ['K']) = some (.ok (2 * 1024)) ∧
    parse_memory_string (lit "2" ++ ['X']) =
      some (.error (.InvalidResourceLimit (lit "Invalid memory unit: " ++ ['X']))) ∧
    parse_memory_string (lit "z" ++ ['G']) =
      some (.error (.InvalidResourceLimit (lit "Invalid memory value: " ++ (lit "z" ++ ['G'])))) :=
  ⟨(C7_parse_memory_string.2.2.2.1 (lit "2") 'K' 2 (by decide)).1 (by decide)
      (by decide) (by decide),
   C7_parse_memory_string.2.2.2.2.2 (lit "2") 'X' 2 (by decide) (by decide)
      (by decide) (by decide),
   C7_parse_memory_string.2.2.2.2.1 (lit "z") 'G' (by decide)⟩

/-- C2: `substitute_env_vars` is a total function (its embedding returns a
string for every text and vars map); the spec's three concrete default-form
identities hold; and, generally, a `${n:-d}` occurrence resolves to the value
when present and non-empty and to the default otherwise, while `${n}` and
bare `$n` occurrences resolve to the value or the empty string.  The
character-class hypotheses state that `n` is a variable name, `d` a
brace-free default, and that the substituted texts introduce no further `$`
(the behaviour when they do is claim C5's subject). -/
theorem C2_substitute :
    (substitute_env_vars (lit "${X:-d}") (fun _ => none) = lit "d" ∧
     substitute_env_vars (lit "${X:-d}")
       (fun n => if n = lit "X" then some [] else none) = lit "d" ∧
     substitute_env_vars (lit "${X:-d}")
       (fun n => if n = lit "X" then some (lit "v") else none) = lit "v") ∧
    (∀ (env : Str → Option Str) (n d : Str),
      n ≠ [] → (∀ c ∈ n, c ≠ '{' ∧ c ≠ '}' ∧ c ≠ ':') →
      (∀ c ∈ d, c ≠ '{' ∧ c ≠ '}') → '$' ∉ d →
      (∀ v, env n = some v → '$' ∉ v) →
      substitute_env_vars ('$' :: '{' :: (n ++ ':' :: '-' :: (d ++ ['}']))) env =
        (match env n with
         | some v => if v = [] then d else v
         | none => d)) ∧
    (∀ (env : Str → Option Str) (n : Str),
      n ≠ [] → (∀ c ∈ n, c ≠ '{' ∧ c ≠ '}' ∧ c ≠ ':' ∧ c ≠ '$') →
      (∀ v, env n = some v → '$' ∉ v) →
      substitute_env_vars ('$' :: '{' :: (n ++ ['}'])) env = (env n).getD []) ∧
    (∀ (env : Str → Option Str) (c : Char) (rest : Str),
      isIdentStart c = true → (∀ a ∈ c :: rest, isIdentChar a = true) →
      substitute_env_vars ('$' :: c :: rest) env = (env (c :: rest)).getD []) := by
  refine ⟨⟨by decide, by decide, by decide⟩, ?_, ?_, ?_⟩
  · exact fun env n d h1 h2 h3 h4 h5 => substitute_default_eval env n d h1 h2 h3 h4 h5
  · exact fun env n h1 h2 h3 => substitute_curly_eval env n h1 h2 h3
  · exact fun env c rest h1 h2 => substitute_bare_eval env c rest h1 h2

/-- C2 witness: the three general parts applied at `${PORT:-8080}` with the
variable absent, `${HOST}` and `$USER` with the variables present. -/
theorem C2_substitute_witness :
    substitute_env_vars ('$' :: '{' :: (lit "PORT" ++ ':' :: '-' :: (lit "8080" ++ ['}'])))
      (fun _ => none) = lit "8080" ∧
    substitute_env_vars ('$' :: '{' :: (lit "HOST" ++ ['}']))
      (fun n => if n = lit "HOST" then some (lit "localhost") else none) = lit "localhost" ∧
    substitute_env_vars ('$' :: 'U' :: lit "SER")
      (fun n => if n = lit "USER" then some (lit "root") else none) = lit "root" :=
  ⟨C2_substitute.2.1 (fun _ => none) (lit "PORT") (lit "8080") (by decide)
      (by decide) (by decide) (by decide) (fun v h => by cases h),
   C2_substitute.2.2.1 (fun n => if n = lit "HOST" then some (lit "localhost") else none)
      (lit "HOST") (by decide) (by decide)
      (fun v h => by
        simp only [if_pos rfl] at h
        rw [← Option.some.inj h]
        decide),
   C2_substitute.2.2.2 (fun n => if n = lit "USER" then some (lit "root") else none)
      'U' (lit "SER") (by decide) (by decide)⟩

/-- C3: the two-service cycle produces the circular-dependency error; and on
every services map the resolver fails with that error exactly when the
`depends_on` graph has a cycle (the cycle error is the sole failure: every
run either succeeds or reports it). -/
theorem C3_cycle_detection :
    resolve_service_order ⟨lit "3",
      [(lit "a", { depends_on := some [lit "b"] }),
       (lit "b", { depends_on := some [lit "a"] })], []⟩ =
      .error (.ValidationError (lit "Circular dependency detected")) ∧
    (∀ c : ComposeConfig,
      (resolve_service_order c =
          .error (.ValidationError (lit "Circular dependency detected")) ↔
        ∃ n, Reach (buildGraph c.services) n n) ∧
      ((∃ ord, resolve_service_order c = .ok ord) ∨
        resolve_service_order c =
          .error (.ValidationError (lit "Circular dependency detected")))) := by
  refine ⟨by decide, ?_⟩
  intro c
  exact ⟨resolveGraph_error_iff_cycle _, resolveGraph_total _⟩

/-- C3 witness: the cycle direction of the characterisation applied to the
concrete two-service cycle. -/
theorem C3_cycle_detection_witness :
    resolve_service_order ⟨lit "3",
      [(lit "a", { depends_on := some [lit "b"] }),
       (lit "b", { depends_on := some [lit "a"] })], []⟩ =
      .error (.ValidationError (lit "Circular dependency detected")) :=
  ((C3_cycle_detection.2 ⟨lit "3",
      [(lit "a", { depends_on := some [lit "b"] }),
       (lit "b", { depends_on := some [lit "a"] })], []⟩).1).mpr
    ⟨lit "a",
      .head (b := lit "b") ⟨[lit "b"], by decide, by decide⟩
        (.single ⟨[lit "a"], by decide, by decide⟩)⟩

/-- C1 counterexample: with one service `a` depending on the nonexistent
service `b`, the resolver succeeds but returns `[b, a]`, which is not a
permutation of the service names `[a]` — missing dependency names are pushed
into the order as well. -/
theorem C1_counterexample :
    resolve_service_order ⟨lit "3",
      [(lit "a", { depends_on := some [lit "b"] })], []⟩ = .ok [lit "b", lit "a"] ∧
    ¬ ([lit "b", lit "a"].Perm
        ([(lit "a", ({ depends_on := some [lit "b"] } : Service))].map Prod.fst)) := by
  constructor
  · decide
  · intro h
    have := h.length_eq
    simp at this

/-- C1 (amended): for every services map (unique names) whose `depends_on`
graph is acyclic, the resolver returns Ok with a duplicate-free sequence that
contains every service name, consists only of service names and referenced
dependency names (missing dependencies are treated as leaves, cause no error,
and are included in the sequence), and in which every `depends_on` entry `d`
of a service `s` appears before `s`. -/
theorem C1_resolve_order_topological (c : ComposeConfig)
    (hnd : (c.services.map Prod.fst).Nodup)
    (hacyc : Acyclic (buildGraph c.services)) :
    ∃ ord, resolve_service_order c = .ok ord ∧ ord.Nodup ∧
      (∀ p ∈ c.services, p.1 ∈ ord) ∧
      (∀ x ∈ ord, x ∈ c.services.map Prod.fst ∨ FromDeps (buildGraph c.services) x) ∧
      (∀ sname s deps, (sname, s) ∈ c.services → s.depends_on = some deps →
        ∀ d ∈ deps, before ord d sname) := by
  obtain ⟨ord, hok, hnodup, hkeys, hmem, horder⟩ := resolveGraph_ok_of_acyclic hacyc
  refine ⟨ord, hok, hnodup, ?_, ?_, ?_⟩
  · intro p hp
    apply hkeys
    rw [keysOf_buildGraph]
    exact List.mem_map_of_mem _ hp
  · intro x hx
    rcases hmem x hx with h | h
    · rw [keysOf_buildGraph] at h
      exact Or.inl h
    · exact Or.inr h
  · intro sname s deps hmem' hdeps d hd
    have hl := lookup_buildGraph hnd hmem'
    rw [hdeps, Option.getD_some] at hl
    exact horder sname deps d hl hd

/-- C1 witness: the amended theorem applied to the acyclic one-service map
whose dependency is missing. -/
theorem C1_resolve_order_topological_witness :
    ∃ ord, resolve_service_order ⟨lit "3",
        [(lit "a", { depends_on := some [lit "b"] })], []⟩ = .ok ord ∧ ord.Nodup ∧
      (∀ p ∈ [(lit "a", ({ depends_on := some [lit "b"] } : Service))], p.1 ∈ ord) ∧
      (∀ x ∈ ord,
        x ∈ [(lit "a", ({ depends_on := some [lit "b"] } : Service))].map Prod.fst ∨
          FromDeps (buildGraph [(lit "a", { depends_on := some [lit "b"] })]) x) ∧
      (∀ sname s deps,
        (sname, s) ∈ [(lit "a", ({ depends_on := some [lit "b"] } : Service))] →
        s.depends_on = some deps → ∀ d ∈ deps, before ord d sname) := by
  apply C1_resolve_order_topological ⟨lit "3",
    [(lit "a", { depends_on := some [lit "b"] })], []⟩ (by decide)
  intro n hn
  have hedge : ∀ x y : Str,
      Edge (buildGraph [(lit "a", ({ depends_on := some [lit "b"] } : Service))]) x y →
      x = lit "a" ∧ y = lit "b" := by
    rintro x y ⟨ds, hl, hm⟩
    by_cases hx : lit "a" = x
    · have hds : ds = [lit "b"] := by
        rw [← hx] at hl
        have : some [lit "b"] = some ds := by
          rw [← hl]
          decide
        exact (Option.some.inj this).symm
      subst hds
      simp at hm
      exact ⟨hx.symm, hm⟩
    · exfalso
      rw [show buildGraph [(lit "a", ({ depends_on := some [lit "b"] } : Service))] =
          [(lit "a", [lit "b"])] from rfl, lookupDeps, if_neg hx] at hl
      cases hl
  cases hn with
  | single e =>
    obtain ⟨h1, h2⟩ := hedge _ _ e
    exact absurd (h1.symm.trans h2) (by decide)
  | head e r =>
    obtain ⟨h1, h2⟩ := hedge _ _ e
    subst h2
    cases r with
    | single e' =>
      obtain ⟨h3, _⟩ := hedge _ _ e'
      exact absurd h3 (by decide)
    | head e' r' =>
      obtain ⟨h3, _⟩ := hedge _ _ e'
      exact absurd h3 (by decide)

/-- C8 counterexample: one service referencing the absent name `v` twice,
first as `v:/a`, then as `v:/b`.  `collect_volumes` records the second
(last) reference — `used_volumes.insert` overwrites — not the first one the
claim promises. -/
theorem C8_counterexample :
    alookup (collect_volumes ⟨lit "3",
        [(lit "s", { volumes := some [.Named (lit "v:/a"), .Named (lit "v:/b")] })],
        []⟩).volumes (lit "v") = some (.Named (lit "v:/b")) ∧
    VolumeType.Named (lit "v:/b") ≠ VolumeType.Named (lit "v:/a") := by
  decide

/-- C8 (amended): after `collect_volumes`, entries already present in the
top-level volumes map keep their original value; every `Named` volume
referenced by some service whose key was absent from the map has been added;
and when the same absent name is referenced more than once with different
data, the LAST reference (in iteration order) is the one recorded, as the
concrete two-reference instance shows. -/
theorem C8_collect_volumes (c : ComposeConfig) :
    (∀ k v, alookup c.volumes k = some v →
      alookup (collect_volumes c).volumes k = some v) ∧
    (∀ sname s vols name, (sname, s) ∈ c.services → s.volumes = some vols →
      VolumeType.Named name ∈ vols → alookup c.volumes (volumeKey name) = none →
      (alookup (collect_volumes c).volumes (volumeKey name)).isSome) ∧
    alookup (collect_volumes ⟨lit "3",
        [(lit "s", { volumes := some [.Named (lit "v:/a"), .Named (lit "v:/b")] })],
        []⟩).volumes (lit "v") = some (.Named (lit "v:/b")) := by
  refine ⟨?_, ?_, by decide⟩
  · intro k v h
    apply extendMap_preserve h
    intro p hp
    rcases collectUsedSvcs_mem c.services [] p hp with h' | h'
    · cases h'
    · intro e
      rw [e, h] at h'
      cases h'
  · intro sname s vols name hmem hvols href habs
    apply extendMap_isSome_right
    exact collectUsedSvcs_isSome_of_ref c.services [] sname s vols name hmem hvols href habs

/-- C8 witness: the amended theorem applied to the concrete two-reference
configuration (preservation at a pre-existing entry, and presence of the
collected name). -/
theorem C8_collect_volumes_witness :
    alookup (collect_volumes ⟨lit "3",
        [(lit "s", { volumes := some [.Named (lit "v:/a"), .Named (lit "w:/x")] })],
        [(lit "q", .Config (lit "q") none none)]⟩).volumes (lit "q") =
      some (.Config (lit "q") none none) ∧
    (alookup (collect_volumes ⟨lit "3",
        [(lit "s", { volumes := some [.Named (lit "v:/a"), .Named (lit "w:/x")] })],
        [(lit "q", .Config (lit "q") none none)]⟩).volumes (volumeKey (lit "v:/a"))).isSome :=
  ⟨(C8_collect_volumes _).1 (lit "q") (.Config (lit "q") none none) (by decide),
   (C8_collect_volumes _).2.1 (lit "s")
      { volumes := some [.Named (lit "v:/a"), .Named (lit "w:/x")] }
      [.Named (lit "v:/a"), .Named (lit "w:/x")] (lit "v:/a")
      (by decide) rfl (by decide) (by decide)⟩

/-- C9 counterexample: `resolve_env_value` (and hence `resolve_env`) reads
the ambient process environment: on `$HOME` with an empty explicit vars map,
two different ambient environments produce two different outputs. -/
theorem C9_counterexample :
    resolve_env_value (lit "$HOME") (fun _ => none) (fun _ => none) = [] ∧
    resolve_env_value (lit "$HOME") (fun _ => none)
      (fun n => if n = lit "HOME" then some (lit "/root") else none) = lit "/root" ∧
    ([] : Str) ≠ lit "/root" ∧
    resolve_env ⟨lit "3", [(lit "s", { environment := some [(lit "K", lit "$HOME")] })], []⟩
        (fun _ => none) (fun _ => none) ≠
      resolve_env ⟨lit "3", [(lit "s", { environment := some [(lit "K", lit "$HOME")] })], []⟩
        (fun _ => none) (fun n => if n = lit "HOME" then some (lit "/root") else none) := by
  decide

/-- C9 (amended): `resolve_env_value` is deterministic given the value, the
explicit vars map and the ambient process environment; the ambient
environment is consulted only for variables absent from the explicit map, so
whenever every variable occurring in the value is present in the map, the
result does not depend on the ambient environment. -/
theorem C9_resolve_env_value_ambient (value : Str) (env sys1 sys2 : Str → Option Str)
    (h : ∀ cap ∈ resolveCaptures value.length value, (env (capName cap.2)).isSome) :
    resolve_env_value value env sys1 = resolve_env_value value env sys2 :=
  foldl_resolveStep_sys _ _ h

/-- C9 witness: the amended theorem at `$A` with `A` present in the map and
two disagreeing ambient environments. -/
theorem C9_resolve_env_value_ambient_witness :
    resolve_env_value (lit "$A")
      (fun n => if n = lit "A" then some (lit "x") else none) (fun _ => none) =
    resolve_env_value (lit "$A")
      (fun n => if n = lit "A" then some (lit "x") else none)
      (fun _ => some (lit "zz")) :=
  C9_resolve_env_value_ambient (lit "$A")
    (fun n => if n = lit "A" then some (lit "x") else none)
    (fun _ => none) (fun _ => some (lit "zz")) (by decide)

end Dockworker
